import Mathlib

/-!
Shallow embedding of the simulation core of the repository
(`src/services/streamlit/lif-explorer/app.py` and
`src/services/streamlit/synaptic-weight-visualizer/app.py`).

Modelling conventions:
* Machine floats are modelled by `ℚ`.  The two transcendental values the code
  obtains from numpy, `np.exp(-dt/τ)` and `np.sqrt(dt)`, are passed in as
  explicit rational parameters (`decayPlus`, `decayMinus`, `decayAvg`,
  `sqrtDt`); none of the verified claims depends on their analytic values.
* numpy's hidden process-global random generator (`np.random.rand`,
  `np.random.randint`, `np.random.randn`) is modelled as an explicitly
  threaded stream of draws (`g : ℕ → ℚ` for uniform draws in `[0,1)`,
  `offs : ℕ → ℕ` for integer draws, `randn : ℕ → ℚ` for normal draws),
  consumed in the same order as the Python code consumes the global stream.
* A spike matrix of shape `n_steps × n_neurons` is a `List (Fin n → Bool)`
  (one row per time step); a weight matrix is a function
  `Fin n_pre → Fin n_post → ℚ`.
* Python-level exceptions of `simulate_lif` are modelled with `Except`.
-/

set_option maxRecDepth 4000
set_option linter.unusedVariables false

/-- Cast of a numpy boolean (spike) to the float value it takes in
arithmetic: `1.0` for `True`, `0.0` for `False`. -/
def b2q (b : Bool) : ℚ := if b then 1 else 0

/-- `np.clip(x, lo, hi)`, elementwise semantics on one scalar:
`min (max x lo) hi`. -/
def clip (x lo hi : ℚ) : ℚ := min (max x lo) hi

/-- Python `int(q)` on a float: truncation toward zero. -/
def truncQ (q : ℚ) : ℤ := if 0 ≤ q then ⌊q⌋ else ⌈q⌉

/-- `row.sum()` for one row of a spike matrix (the numpy sum of the 0/1
float entries). -/
def rowSum {n : ℕ} (row : Fin n → Bool) : ℚ := ∑ i, b2q (row i)

/-- `generate_poisson_spikes(rate_hz, duration_ms, dt_ms, n_neurons)` from
`synaptic-weight-visualizer/app.py`.  `n_steps = int(duration_ms / dt_ms)`;
`prob = rate_hz * dt_ms / 1000.0`; entry `(t, i)` is
`np.random.rand(n_steps, n_neurons)[t, i] < prob`, the global uniform stream
`g` being consumed row-major (draw index `t * n_neurons + i`). -/
def generate_poisson_spikes (rate_hz duration_ms dt_ms : ℚ) (n_neurons : ℕ)
    (g : ℕ → ℚ) : List (Fin n_neurons → Bool) :=
  let n_steps := (truncQ (duration_ms / dt_ms)).toNat
  let prob := rate_hz * dt_ms / 1000
  (List.range n_steps).map (fun t => fun i => decide (g (t * n_neurons + i) < prob))

/-- `generate_regular_spikes(interval_ms, duration_ms, dt_ms, n_neurons)`.
`n_steps = int(duration_ms / dt_ms)`; `interval_steps = int(interval_ms /
dt_ms)`; neuron `i` gets offset `np.random.randint(0, interval_steps)`
(modelled as the drawn stream value reduced mod the range) and spikes at
`offset, offset + interval_steps, …` (the slice
`spikes[offset::interval_steps, i] = 1.0`). -/
def generate_regular_spikes (interval_ms duration_ms dt_ms : ℚ) (n_neurons : ℕ)
    (offs : ℕ → ℕ) : List (Fin n_neurons → Bool) :=
  let n_steps := (truncQ (duration_ms / dt_ms)).toNat
  let interval_steps := (truncQ (interval_ms / dt_ms)).toNat
  (List.range n_steps).map (fun t => fun i =>
    let o := offs i.val % interval_steps
    decide (o ≤ t ∧ (t - o) % interval_steps = 0))

/-- `generate_correlated_spikes(rate_hz, correlation, duration_ms, dt_ms,
n_neurons)`.  A shared Bernoulli column (consuming `n_steps` global draws)
and an independent Bernoulli matrix (consuming the next
`n_steps * n_neurons` draws); emitted spike is
`correlation * shared + (1 - correlation) * independent > 0.5`. -/
def generate_correlated_spikes (rate_hz correlation duration_ms dt_ms : ℚ)
    (n_neurons : ℕ) (g : ℕ → ℚ) : List (Fin n_neurons → Bool) :=
  let n_steps := (truncQ (duration_ms / dt_ms)).toNat
  let prob := rate_hz * dt_ms / 1000
  (List.range n_steps).map (fun t => fun i =>
    decide (correlation * b2q (decide (g t < prob))
      + (1 - correlation) * b2q (decide (g (n_steps + t * n_neurons + i.val) < prob)) > 1/2))

/-- One loop iteration of `simulate_lif` (`lif-explorer/app.py`, the body of
`for k in range(1, n)`): `dv = alpha * (-(v[k-1] - v_rest) + i_dc) +
noise_sigma * np.sqrt(dt) * np.random.randn()`; `v[k] = v[k-1] + dv`; then
the threshold test, recording a spike and overwriting with `v_reset`.
`noiseCoef` is `noise_sigma * np.sqrt(dt)` and `randn k` the normal draw
consumed at step `k`. -/
def lifStep (alpha v_rest v_reset v_th i_dc noiseCoef : ℚ) (randn : ℕ → ℚ)
    (k : ℕ) (vprev : ℚ) : ℚ × Bool :=
  let dv := alpha * (-(vprev - v_rest) + i_dc) + noiseCoef * randn k
  let v := vprev + dv
  if v_th ≤ v then (v_reset, true) else (v, false)

/-- The per-step loop of `simulate_lif`: `m` remaining iterations, next step
index `k`, previous potential `vprev`; produces the list of
`(v[k], spikes[k])` pairs for steps `k, k+1, …`. -/
def lifLoop (alpha v_rest v_reset v_th i_dc noiseCoef : ℚ) (randn : ℕ → ℚ) :
    ℕ → ℕ → ℚ → List (ℚ × Bool)
  | 0, _, _ => []
  | m + 1, k, vprev =>
    let r := lifStep alpha v_rest v_reset v_th i_dc noiseCoef randn k vprev
    r :: lifLoop alpha v_rest v_reset v_th i_dc noiseCoef randn m (k + 1) r.1

/-- The full per-step trace of `simulate_lif` as `(v[k], spikes[k])` pairs:
`v[0] = v_rest`, `spikes[0] = 0`, then `n - 1` loop iterations starting at
`k = 1`. -/
def lifPairs (alpha v_rest v_reset v_th i_dc noiseCoef : ℚ) (randn : ℕ → ℚ)
    (n : ℕ) : List (ℚ × Bool) :=
  (v_rest, false) :: lifLoop alpha v_rest v_reset v_th i_dc noiseCoef randn (n - 1) 1 v_rest

/-- `simulate_lif(tau, dt, T, v_rest, v_reset, v_th, i_dc, noise_sigma)`
from `lif-explorer/app.py`, with Python-level exceptions made explicit:
`n = int(np.ceil(T / dt))` raises `ZeroDivisionError` when `dt == 0`;
`np.zeros(n)` raises `ValueError` when `n < 0`; `v[0] = v_rest` raises
`IndexError` when `n == 0`; `alpha = dt / tau` raises `ZeroDivisionError`
when `tau == 0`.  No other validation exists in the source.  `sqrtDt`
models `np.sqrt(dt)` and `randn` the global normal-draw stream.  Returns
the potential trace `v` and the 0/1 spike array. -/
def simulate_lif (tau dt T v_rest v_reset v_th i_dc noise_sigma sqrtDt : ℚ)
    (randn : ℕ → ℚ) : Except String (List ℚ × List Bool) :=
  if dt = 0 then .error "ZeroDivisionError" else
  let nz : ℤ := ⌈T / dt⌉
  if nz < 0 then .error "ValueError: negative dimensions are not allowed" else
  if nz = 0 then .error "IndexError" else
  if tau = 0 then .error "ZeroDivisionError" else
  let pairs := lifPairs (dt / tau) v_rest v_reset v_th i_dc (noise_sigma * sqrtDt) randn nz.toNat
  .ok (pairs.map Prod.fst, pairs.map Prod.snd)

/-- Body of the pre-synaptic loop of `stdp_learning`
(`synaptic-weight-visualizer/app.py`): for a spiking pre neuron `i`,
`pre_trace[i] += 1.0` and `W[i, :] -= eta * a_minus * post_trace`, where
`postTr` is the post trace as it stands during the pre loop. -/
def preStepF {npre npost : ℕ} (eta a_minus : ℚ) (postTr : Fin npost → ℚ)
    (st : (Fin npre → ℚ) × (Fin npre → Fin npost → ℚ)) (x : Fin npre) :
    (Fin npre → ℚ) × (Fin npre → Fin npost → ℚ) :=
  (Function.update st.1 x (st.1 x + 1),
   fun a b => if a = x then st.2 a b - eta * a_minus * postTr b else st.2 a b)

/-- The pre-synaptic loop of `stdp_learning`:
`for i in np.where(pre_spikes[t] > 0)[0]`, in increasing neuron-index
order. -/
def stdpPrePhase {npre npost : ℕ} (eta a_minus : ℚ) (postTr : Fin npost → ℚ)
    (preRow : Fin npre → Bool)
    (st : (Fin npre → ℚ) × (Fin npre → Fin npost → ℚ)) :
    (Fin npre → ℚ) × (Fin npre → Fin npost → ℚ) :=
  ((List.finRange npre).filter (fun i => preRow i)).foldl
    (preStepF eta a_minus postTr) st

/-- Body of the post-synaptic loop of `stdp_learning`: for a spiking post
neuron `j`, `post_trace[j] += 1.0` and `W[:, j] += eta * a_plus *
pre_trace`, where `preTr` is the pre trace after the pre loop. -/
def postStepF {npre npost : ℕ} (eta a_plus : ℚ) (preTr : Fin npre → ℚ)
    (st : (Fin npost → ℚ) × (Fin npre → Fin npost → ℚ)) (x : Fin npost) :
    (Fin npost → ℚ) × (Fin npre → Fin npost → ℚ) :=
  (Function.update st.1 x (st.1 x + 1),
   fun a b => if b = x then st.2 a b + eta * a_plus * preTr a else st.2 a b)

/-- The post-synaptic loop of `stdp_learning`:
`for j in np.where(post_spikes[t] > 0)[0]`, in increasing neuron-index
order. -/
def stdpPostPhase {npre npost : ℕ} (eta a_plus : ℚ) (preTr : Fin npre → ℚ)
    (postRow : Fin npost → Bool)
    (st : (Fin npost → ℚ) × (Fin npre → Fin npost → ℚ)) :
    (Fin npost → ℚ) × (Fin npre → Fin npost → ℚ) :=
  ((List.finRange npost).filter (fun j => postRow j)).foldl
    (postStepF eta a_plus preTr) st

/-- One iteration of the time loop of `stdp_learning`, on the state
`(pre_trace, post_trace, W)`: decay both traces (`decayPlus`, `decayMinus`
model `np.exp(-dt/tau_plus)` and `np.exp(-dt/tau_minus)`), run the pre loop,
run the post loop (its potentiation reads the pre trace as incremented by
the pre loop), then `W = np.clip(W, w_min, w_max)`. -/
def stdpStep {npre npost : ℕ}
    (eta decayPlus decayMinus a_plus a_minus w_min w_max : ℚ)
    (preRow : Fin npre → Bool) (postRow : Fin npost → Bool)
    (st : (Fin npre → ℚ) × (Fin npost → ℚ) × (Fin npre → Fin npost → ℚ)) :
    (Fin npre → ℚ) × (Fin npost → ℚ) × (Fin npre → Fin npost → ℚ) :=
  let preTr := fun i => st.1 i * decayPlus
  let postTr := fun j => st.2.1 j * decayMinus
  let pre2 := stdpPrePhase eta a_minus postTr preRow (preTr, st.2.2)
  let post2 := stdpPostPhase eta a_plus pre2.1 postRow (postTr, pre2.2)
  (pre2.1, post2.1, fun i j => clip (post2.2 i j) w_min w_max)

/-- The time loop of `stdp_learning`: one `stdpStep` per row of
`pre_spikes`, appending a copy of `W` to the history after each step.  The
matching row of `post_spikes` is consumed in lockstep.  This totalisation
substitutes an all-silent row once `post_spikes` is exhausted, where the
Python code would raise `IndexError` mid-loop at `np.where(post_spikes[t]
> 0)`; every theorem about this function therefore carries the
matched-length hypothesis `post_spikes.length = pre_spikes.length`, and
the mid-loop error path is modelled explicitly (for the Hebbian rule,
whose short-circuited guard makes it conditional) by `hebbAuxExc`. -/
def stdpAux {npre npost : ℕ}
    (eta decayPlus decayMinus a_plus a_minus w_min w_max : ℚ) :
    List (Fin npre → Bool) → List (Fin npost → Bool) →
    ((Fin npre → ℚ) × (Fin npost → ℚ) × (Fin npre → Fin npost → ℚ)) →
    List (Fin npre → Fin npost → ℚ)
  | [], _, _ => []
  | p :: ps, posts, st =>
    let st2 := stdpStep eta decayPlus decayMinus a_plus a_minus w_min w_max
      p (posts.headD (fun _ => false)) st
    st2.2.2 :: stdpAux eta decayPlus decayMinus a_plus a_minus w_min w_max ps posts.tail st2

/-- `stdp_learning(pre_spikes, post_spikes, w_init, eta, tau_plus,
tau_minus, a_plus, a_minus, w_min, w_max, dt)` from
`synaptic-weight-visualizer/app.py`; the time constants and `dt` enter only
through the decay factors `decayPlus = np.exp(-dt/tau_plus)` and
`decayMinus = np.exp(-dt/tau_minus)`, which are taken as parameters.
Returns `W_history`, initialised with a copy of `w_init` and grown by one
snapshot per step. -/
def stdp_learning {npre npost : ℕ}
    (pre_spikes : List (Fin npre → Bool)) (post_spikes : List (Fin npost → Bool))
    (w_init : Fin npre → Fin npost → ℚ)
    (eta decayPlus decayMinus a_plus a_minus w_min w_max : ℚ) :
    List (Fin npre → Fin npost → ℚ) :=
  w_init :: stdpAux eta decayPlus decayMinus a_plus a_minus w_min w_max
    pre_spikes post_spikes ((fun _ => 0), (fun _ => 0), w_init)

/-- One iteration of the time loop of `hebbian_learning`: if both
populations spiked this step (`pre_spikes[t].sum() > 0 and
post_spikes[t].sum() > 0`), `W += eta * np.outer(pre_spikes[t],
post_spikes[t])` followed by `W = np.clip(W, w_min, w_max)`; otherwise `W`
is untouched. -/
def hebbStep {npre npost : ℕ} (eta w_min w_max : ℚ)
    (preRow : Fin npre → Bool) (postRow : Fin npost → Bool)
    (W : Fin npre → Fin npost → ℚ) : Fin npre → Fin npost → ℚ :=
  if rowSum preRow > 0 ∧ rowSum postRow > 0 then
    fun i j => clip (W i j + eta * (b2q (preRow i) * b2q (postRow j))) w_min w_max
  else W

/-- The time loop of `hebbian_learning`, appending a copy of `W` per step
(the append happens whether or not the update fired).  This totalisation
substitutes an all-silent row once `post_spikes` is exhausted; the Python
behaviour there — an `IndexError` raised mid-loop by `post_spikes[t]`, but
only on steps whose pre row spikes, because the `and` in the guard
short-circuits — is modelled faithfully by `hebbAuxExc` below, which
agrees with this function whenever `post_spikes` is long enough
(`hebbAuxExc_ok_of_le`). -/
def hebbAux {npre npost : ℕ} (eta w_min w_max : ℚ) :
    List (Fin npre → Bool) → List (Fin npost → Bool) →
    (Fin npre → Fin npost → ℚ) → List (Fin npre → Fin npost → ℚ)
  | [], _, _ => []
  | p :: ps, posts, W =>
    let W2 := hebbStep eta w_min w_max p (posts.headD (fun _ => false)) W
    W2 :: hebbAux eta w_min w_max ps posts.tail W2

/-- `hebbian_learning(pre_spikes, post_spikes, w_init, eta, w_min, w_max)`
from `synaptic-weight-visualizer/app.py`. -/
def hebbian_learning {npre npost : ℕ}
    (pre_spikes : List (Fin npre → Bool)) (post_spikes : List (Fin npost → Bool))
    (w_init : Fin npre → Fin npost → ℚ) (eta w_min w_max : ℚ) :
    List (Fin npre → Fin npost → ℚ) :=
  w_init :: hebbAux eta w_min w_max pre_spikes post_spikes w_init

/-- The Hebbian time loop with the Python `IndexError` path made explicit.
The guard `pre_spikes[t].sum() > 0 and post_spikes[t].sum() > 0`
short-circuits, so `post_spikes[t]` is indexed only on steps whose pre row
spiked; once `t` is past the end of `post_spikes`, that indexing raises
`IndexError` mid-loop.  On steps whose pre row is silent, `post_spikes[t]`
is never touched and the loop continues. -/
def hebbAuxExc {npre npost : ℕ} (eta w_min w_max : ℚ) :
    List (Fin npre → Bool) → List (Fin npost → Bool) →
    (Fin npre → Fin npost → ℚ) → Except String (List (Fin npre → Fin npost → ℚ))
  | [], _, _ => .ok []
  | p :: ps, [], W =>
    if rowSum p > 0 then .error "IndexError"
    else Except.map (fun rest => W :: rest) (hebbAuxExc eta w_min w_max ps [] W)
  | p :: ps, q :: qs, W =>
    if rowSum p > 0 then
      let W2 := hebbStep eta w_min w_max p q W
      Except.map (fun rest => W2 :: rest) (hebbAuxExc eta w_min w_max ps qs W2)
    else Except.map (fun rest => W :: rest) (hebbAuxExc eta w_min w_max ps qs W)

/-- `hebbian_learning` with the Python exception path preserved: returns
the trajectory, or the `IndexError` the loop raises when it first indexes
`post_spikes` past its end. -/
def hebbian_learning_exc {npre npost : ℕ}
    (pre_spikes : List (Fin npre → Bool)) (post_spikes : List (Fin npost → Bool))
    (w_init : Fin npre → Fin npost → ℚ) (eta w_min w_max : ℚ) :
    Except String (List (Fin npre → Fin npost → ℚ)) :=
  Except.map (fun rest => w_init :: rest)
    (hebbAuxExc eta w_min w_max pre_spikes post_spikes w_init)

/-- One iteration of the time loop of `bcm_learning`, on the state
`(post_activity, W)`: the running average decays
(`decayAvg` models `np.exp(-dt/tau_avg)` with `tau_avg = 100.0` fixed in
the source) and accumulates `post_spikes[t]`; then, gated on both
populations spiking, `W += eta * np.outer(pre_spikes[t], phi)` with
`phi = post_spikes[t] * (post_spikes[t] - theta)`, followed by the clip. -/
def bcmStep {npre npost : ℕ} (eta theta w_min w_max decayAvg : ℚ)
    (preRow : Fin npre → Bool) (postRow : Fin npost → Bool)
    (st : (Fin npost → ℚ) × (Fin npre → Fin npost → ℚ)) :
    (Fin npost → ℚ) × (Fin npre → Fin npost → ℚ) :=
  let a := fun j => st.1 j * decayAvg + b2q (postRow j)
  if rowSum preRow > 0 ∧ rowSum postRow > 0 then
    (a, fun i j => clip (st.2 i j
        + eta * (b2q (preRow i) * (b2q (postRow j) * (b2q (postRow j) - theta)))) w_min w_max)
  else (a, st.2)

/-- The time loop of `bcm_learning`, appending a copy of `W` per step.
Totalised with an all-silent default row like `hebbAux` (in Python,
`post_activity += post_spikes[t]` faults mid-loop once `post_spikes` is
exhausted); every theorem about it carries the matched-length
hypothesis. -/
def bcmAux {npre npost : ℕ} (eta theta w_min w_max decayAvg : ℚ) :
    List (Fin npre → Bool) → List (Fin npost → Bool) →
    ((Fin npost → ℚ) × (Fin npre → Fin npost → ℚ)) →
    List (Fin npre → Fin npost → ℚ)
  | [], _, _ => []
  | p :: ps, posts, st =>
    let st2 := bcmStep eta theta w_min w_max decayAvg p (posts.headD (fun _ => false)) st
    st2.2 :: bcmAux eta theta w_min w_max decayAvg ps posts.tail st2

/-- `bcm_learning(pre_spikes, post_spikes, w_init, eta, theta, w_min,
w_max, dt)` from `synaptic-weight-visualizer/app.py`; `post_activity`
starts at the zero vector and `decayAvg` models `np.exp(-dt/tau_avg)`. -/
def bcm_learning {npre npost : ℕ}
    (pre_spikes : List (Fin npre → Bool)) (post_spikes : List (Fin npost → Bool))
    (w_init : Fin npre → Fin npost → ℚ) (eta theta w_min w_max decayAvg : ℚ) :
    List (Fin npre → Fin npost → ℚ) :=
  w_init :: bcmAux eta theta w_min w_max decayAvg pre_spikes post_spikes
    ((fun _ => 0), w_init)

/-- Spec-comparison definition for the refinement claim about BCM: the same
loop with the `post_activity` running average (and hence `tau_avg`)
removed; the weight update is exactly `bcmStep`'s, which never reads the
running average. -/
def bcmStepNoState {npre npost : ℕ} (eta theta w_min w_max : ℚ)
    (preRow : Fin npre → Bool) (postRow : Fin npost → Bool)
    (W : Fin npre → Fin npost → ℚ) : Fin npre → Fin npost → ℚ :=
  if rowSum preRow > 0 ∧ rowSum postRow > 0 then
    fun i j => clip (W i j
      + eta * (b2q (preRow i) * (b2q (postRow j) * (b2q (postRow j) - theta)))) w_min w_max
  else W

/-- Time loop of the activity-free BCM comparison definition. -/
def bcmAuxNoState {npre npost : ℕ} (eta theta w_min w_max : ℚ) :
    List (Fin npre → Bool) → List (Fin npost → Bool) →
    (Fin npre → Fin npost → ℚ) → List (Fin npre → Fin npost → ℚ)
  | [], _, _ => []
  | p :: ps, posts, W =>
    let W2 := bcmStepNoState eta theta w_min w_max p (posts.headD (fun _ => false)) W
    W2 :: bcmAuxNoState eta theta w_min w_max ps posts.tail W2

/-- The activity-free BCM rule (comparison definition for the refinement
claim): identical to `bcm_learning` except that the `post_activity` state
and its decay constant are deleted. -/
def bcm_learning_nostate {npre npost : ℕ}
    (pre_spikes : List (Fin npre → Bool)) (post_spikes : List (Fin npost → Bool))
    (w_init : Fin npre → Fin npost → ℚ) (eta theta w_min w_max : ℚ) :
    List (Fin npre → Fin npost → ℚ) :=
  w_init :: bcmAuxNoState eta theta w_min w_max pre_spikes post_spikes w_init

/-! ### Helper lemmas -/

lemma clip_le_right (x lo hi : ℚ) : clip x lo hi ≤ hi := min_le_right _ _

lemma le_clip (x : ℚ) {lo hi : ℚ} (h : lo ≤ hi) : lo ≤ clip x lo hi :=
  le_min (le_max_right _ _) h

lemma clip_eq_self {x lo hi : ℚ} (h1 : lo ≤ x) (h2 : x ≤ hi) : clip x lo hi = x := by
  unfold clip
  rw [max_eq_left h1, min_eq_left h2]

lemma headD_eq_getD {α : Type} (l : List α) (d : α) : l.headD d = l.getD 0 d := by
  cases l <;> rfl

lemma tail_getD {α : Type} (l : List α) (t : ℕ) (d : α) :
    l.tail.getD t d = l.getD (t + 1) d := by
  cases l <;> simp [List.getD]

lemma getD_map_of_lt {α β : Type} (f : α → β) (l : List α) (t : ℕ)
    (h : t < l.length) (d : β) (d2 : α) : (l.map f).getD t d = f (l.getD t d2) := by
  induction l generalizing t with
  | nil => simp at h
  | cons a as ih =>
    cases t with
    | zero => rfl
    | succ t =>
      simp only [List.map_cons, List.getD_cons_succ]
      exact ih t (by simpa using h)

lemma b2q_nonneg (b : Bool) : 0 ≤ b2q b := by cases b <;> simp [b2q]

lemma rowSum_eq_zero {n : ℕ} {row : Fin n → Bool} (h : ∀ i, row i = false) :
    rowSum row = 0 := by
  unfold rowSum
  exact Finset.sum_eq_zero (fun i _ => by simp [h i, b2q])

lemma gate_closed_of_pre_silent {npre npost : ℕ} {preRow : Fin npre → Bool}
    (postRow : Fin npost → Bool) (h : ∀ i, preRow i = false) :
    ¬ (rowSum preRow > 0 ∧ rowSum postRow > 0) := by
  intro hc
  rw [rowSum_eq_zero h] at hc
  exact absurd hc.1 (lt_irrefl 0)

/-- Pointwise effect of the pre loop on the pre trace: with a duplicate-free
iteration list, entry `i` is incremented exactly when `i` occurs in the
list. -/
lemma preFold_trace {npre npost : ℕ} (eta a_minus : ℚ) (postTr : Fin npost → ℚ)
    (l : List (Fin npre)) (hnd : l.Nodup)
    (st : (Fin npre → ℚ) × (Fin npre → Fin npost → ℚ)) (i : Fin npre) :
    (l.foldl (preStepF eta a_minus postTr) st).1 i
      = if i ∈ l then st.1 i + 1 else st.1 i := by
  induction l generalizing st with
  | nil => simp
  | cons x xs ih =>
    rcases List.nodup_cons.mp hnd with ⟨hx, hxs⟩
    simp only [List.foldl_cons]
    rw [ih hxs]
    by_cases hix : i = x
    · subst hix
      simp [hx, preStepF]
    · simp [preStepF, Function.update_noteq hix, List.mem_cons, hix]

/-- Pointwise effect of the pre loop on the weight matrix: row `i` is
depressed by `eta * a_minus * postTr` exactly when `i` occurs in the
iteration list. -/
lemma preFold_W {npre npost : ℕ} (eta a_minus : ℚ) (postTr : Fin npost → ℚ)
    (l : List (Fin npre)) (hnd : l.Nodup)
    (st : (Fin npre → ℚ) × (Fin npre → Fin npost → ℚ)) (i : Fin npre) (j : Fin npost) :
    (l.foldl (preStepF eta a_minus postTr) st).2 i j
      = if i ∈ l then st.2 i j - eta * a_minus * postTr j else st.2 i j := by
  induction l generalizing st with
  | nil => simp
  | cons x xs ih =>
    rcases List.nodup_cons.mp hnd with ⟨hx, hxs⟩
    simp only [List.foldl_cons]
    rw [ih hxs]
    by_cases hix : i = x
    · subst hix
      simp [hx, preStepF]
    · simp [preStepF, List.mem_cons, hix]

/-- Pointwise effect of the post loop on the post trace. -/
lemma postFold_trace {npre npost : ℕ} (eta a_plus : ℚ) (preTr : Fin npre → ℚ)
    (l : List (Fin npost)) (hnd : l.Nodup)
    (st : (Fin npost → ℚ) × (Fin npre → Fin npost → ℚ)) (j : Fin npost) :
    (l.foldl (postStepF eta a_plus preTr) st).1 j
      = if j ∈ l then st.1 j + 1 else st.1 j := by
  induction l generalizing st with
  | nil => simp
  | cons x xs ih =>
    rcases List.nodup_cons.mp hnd with ⟨hx, hxs⟩
    simp only [List.foldl_cons]
    rw [ih hxs]
    by_cases hjx : j = x
    · subst hjx
      simp [hx, postStepF]
    · simp [postStepF, Function.update_noteq hjx, List.mem_cons, hjx]

/-- Pointwise effect of the post loop on the weight matrix: column `j` is
potentiated by `eta * a_plus * preTr` exactly when `j` occurs in the
iteration list. -/
lemma postFold_W {npre npost : ℕ} (eta a_plus : ℚ) (preTr : Fin npre → ℚ)
    (l : List (Fin npost)) (hnd : l.Nodup)
    (st : (Fin npost → ℚ) × (Fin npre → Fin npost → ℚ)) (i : Fin npre) (j : Fin npost) :
    (l.foldl (postStepF eta a_plus preTr) st).2 i j
      = if j ∈ l then st.2 i j + eta * a_plus * preTr i else st.2 i j := by
  induction l generalizing st with
  | nil => simp
  | cons x xs ih =>
    rcases List.nodup_cons.mp hnd with ⟨hx, hxs⟩
    simp only [List.foldl_cons]
    rw [ih hxs]
    by_cases hjx : j = x
    · subst hjx
      simp [hx, postStepF]
    · simp [postStepF, List.mem_cons, hjx]

lemma mem_spikeFilter {n : ℕ} (row : Fin n → Bool) (i : Fin n) :
    i ∈ (List.finRange n).filter (fun k => row k) ↔ row i = true := by
  simp [List.mem_filter]

lemma nodup_spikeFilter {n : ℕ} (row : Fin n → Bool) :
    ((List.finRange n).filter (fun k => row k)).Nodup :=
  (List.nodup_finRange n).filter _

/-- Closed form of the decayed-then-incremented pre trace after one
`stdpStep`. -/
lemma stdpStep_preTrace {npre npost : ℕ}
    (eta decayPlus decayMinus a_plus a_minus w_min w_max : ℚ)
    (preRow : Fin npre → Bool) (postRow : Fin npost → Bool)
    (st : (Fin npre → ℚ) × (Fin npost → ℚ) × (Fin npre → Fin npost → ℚ)) (i : Fin npre) :
    (stdpStep eta decayPlus decayMinus a_plus a_minus w_min w_max preRow postRow st).1 i
      = st.1 i * decayPlus + b2q (preRow i) := by
  unfold stdpStep stdpPrePhase
  rw [preFold_trace _ _ _ _ (nodup_spikeFilter preRow)]
  by_cases h : preRow i = true
  · rw [if_pos ((mem_spikeFilter preRow i).mpr h)]
    simp [h, b2q]
  · rw [if_neg (fun hm => h ((mem_spikeFilter preRow i).mp hm))]
    simp at h
    simp [h, b2q]

/-- Closed form of the decayed-then-incremented post trace after one
`stdpStep`. -/
lemma stdpStep_postTrace {npre npost : ℕ}
    (eta decayPlus decayMinus a_plus a_minus w_min w_max : ℚ)
    (preRow : Fin npre → Bool) (postRow : Fin npost → Bool)
    (st : (Fin npre → ℚ) × (Fin npost → ℚ) × (Fin npre → Fin npost → ℚ)) (j : Fin npost) :
    (stdpStep eta decayPlus decayMinus a_plus a_minus w_min w_max preRow postRow st).2.1 j
      = st.2.1 j * decayMinus + b2q (postRow j) := by
  unfold stdpStep stdpPostPhase
  rw [postFold_trace _ _ _ _ (nodup_spikeFilter postRow)]
  by_cases h : postRow j = true
  · rw [if_pos ((mem_spikeFilter postRow j).mpr h)]
    simp [h, b2q]
  · rw [if_neg (fun hm => h ((mem_spikeFilter postRow j).mp hm))]
    simp at h
    simp [h, b2q]

/-- Closed form of the weight matrix after one `stdpStep`: each entry is
depressed using the decayed (pre-increment) post trace when the pre neuron
spiked, potentiated using the decayed-and-incremented pre trace when the
post neuron spiked, then clipped. -/
lemma stdpStep_W {npre npost : ℕ}
    (eta decayPlus decayMinus a_plus a_minus w_min w_max : ℚ)
    (preRow : Fin npre → Bool) (postRow : Fin npost → Bool)
    (st : (Fin npre → ℚ) × (Fin npost → ℚ) × (Fin npre → Fin npost → ℚ))
    (i : Fin npre) (j : Fin npost) :
    (stdpStep eta decayPlus decayMinus a_plus a_minus w_min w_max preRow postRow st).2.2 i j
      = clip (st.2.2 i j
          - b2q (preRow i) * (eta * a_minus * (st.2.1 j * decayMinus))
          + b2q (postRow j) * (eta * a_plus * (st.1 i * decayPlus + b2q (preRow i))))
          w_min w_max := by
  have hpreTr : (stdpPrePhase eta a_minus (fun j => st.2.1 j * decayMinus) preRow
      ((fun i => st.1 i * decayPlus), st.2.2)).1 i
      = st.1 i * decayPlus + b2q (preRow i) := by
    unfold stdpPrePhase
    rw [preFold_trace _ _ _ _ (nodup_spikeFilter preRow)]
    by_cases h : preRow i = true
    · rw [if_pos ((mem_spikeFilter preRow i).mpr h)]
      simp [h, b2q]
    · rw [if_neg (fun hm => h ((mem_spikeFilter preRow i).mp hm))]
      simp at h
      simp [h, b2q]
  simp only [stdpStep, stdpPostPhase]
  rw [postFold_W _ _ _ _ (nodup_spikeFilter postRow)]
  rw [hpreTr]
  simp only [stdpPrePhase]
  rw [preFold_W _ _ _ _ (nodup_spikeFilter preRow)]
  by_cases hp : preRow i = true <;> by_cases hq : postRow j = true
  · rw [if_pos ((mem_spikeFilter postRow j).mpr hq),
      if_pos ((mem_spikeFilter preRow i).mpr hp)]
    simp only [hp, hq, b2q, if_pos]
    ring_nf
  · rw [if_neg (fun hm => hq ((mem_spikeFilter postRow j).mp hm)),
      if_pos ((mem_spikeFilter preRow i).mpr hp)]
    simp only [hp, b2q, if_pos]
    simp only [Bool.not_eq_true] at hq
    simp [hq]
  · rw [if_pos ((mem_spikeFilter postRow j).mpr hq),
      if_neg (fun hm => hp ((mem_spikeFilter preRow i).mp hm))]
    simp only [hq, b2q, if_pos]
    simp only [Bool.not_eq_true] at hp
    simp [hp]
  · rw [if_neg (fun hm => hq ((mem_spikeFilter postRow j).mp hm)),
      if_neg (fun hm => hp ((mem_spikeFilter preRow i).mp hm))]
    simp only [Bool.not_eq_true] at hp hq
    simp [hp, hq, b2q]

/-- The clipped weight matrix produced by one `stdpStep`. -/
lemma stdpStep_W_clip {npre npost : ℕ}
    (eta decayPlus decayMinus a_plus a_minus w_min w_max : ℚ)
    (preRow : Fin npre → Bool) (postRow : Fin npost → Bool)
    (st : (Fin npre → ℚ) × (Fin npost → ℚ) × (Fin npre → Fin npost → ℚ))
    (i : Fin npre) (j : Fin npost) :
    ∃ y, (stdpStep eta decayPlus decayMinus a_plus a_minus w_min w_max preRow postRow st).2.2 i j
      = clip y w_min w_max :=
  ⟨_, stdpStep_W eta decayPlus decayMinus a_plus a_minus w_min w_max preRow postRow st i j⟩

/-! ### Run-level lemmas -/

lemma stdpAux_length {npre npost : ℕ}
    (eta decayPlus decayMinus a_plus a_minus w_min w_max : ℚ) :
    ∀ (ps : List (Fin npre → Bool)) (qs : List (Fin npost → Bool)) st,
    (stdpAux eta decayPlus decayMinus a_plus a_minus w_min w_max ps qs st).length = ps.length
  | [], _, _ => rfl
  | _ :: ps, qs, st => by
    simp only [stdpAux, List.length_cons]
    rw [stdpAux_length eta decayPlus decayMinus a_plus a_minus w_min w_max ps qs.tail]

lemma hebbAux_length {npre npost : ℕ} (eta w_min w_max : ℚ) :
    ∀ (ps : List (Fin npre → Bool)) (qs : List (Fin npost → Bool)) W,
    (hebbAux eta w_min w_max ps qs W).length = ps.length
  | [], _, _ => rfl
  | _ :: ps, qs, W => by
    simp only [hebbAux, List.length_cons]
    rw [hebbAux_length eta w_min w_max ps qs.tail]

lemma bcmAux_length {npre npost : ℕ} (eta theta w_min w_max decayAvg : ℚ) :
    ∀ (ps : List (Fin npre → Bool)) (qs : List (Fin npost → Bool)) st,
    (bcmAux eta theta w_min w_max decayAvg ps qs st).length = ps.length
  | [], _, _ => rfl
  | _ :: ps, qs, st => by
    simp only [bcmAux, List.length_cons]
    rw [bcmAux_length eta theta w_min w_max decayAvg ps qs.tail]

lemma lifLoop_length (alpha v_rest v_reset v_th i_dc nc : ℚ) (randn : ℕ → ℚ) :
    ∀ (m k : ℕ) (vp : ℚ), (lifLoop alpha v_rest v_reset v_th i_dc nc randn m k vp).length = m
  | 0, _, _ => rfl
  | m + 1, k, vp => by
    simp only [lifLoop, List.length_cons]
    rw [lifLoop_length alpha v_rest v_reset v_th i_dc nc randn m (k + 1)]

/-- The `post_activity` state never feeds the BCM weight update: the full
run equals the activity-free run, for every decay factor. -/
lemma bcmAux_eq_nostate {npre npost : ℕ} (eta theta w_min w_max decayAvg : ℚ) :
    ∀ (ps : List (Fin npre → Bool)) (qs : List (Fin npost → Bool))
      (a : Fin npost → ℚ) (W : Fin npre → Fin npost → ℚ),
    bcmAux eta theta w_min w_max decayAvg ps qs (a, W)
      = bcmAuxNoState eta theta w_min w_max ps qs W
  | [], _, _, _ => rfl
  | p :: ps, qs, a, W => by
    simp only [bcmAux, bcmAuxNoState]
    have hstep : bcmStep eta theta w_min w_max decayAvg p (qs.headD (fun _ => false)) (a, W)
        = ((fun j => a j * decayAvg + b2q (qs.headD (fun _ => false) j)),
           bcmStepNoState eta theta w_min w_max p (qs.headD (fun _ => false)) W) := by
      simp only [bcmStep, bcmStepNoState]
      split <;> rfl
    rw [hstep]
    rw [bcmAux_eq_nostate eta theta w_min w_max decayAvg ps qs.tail]

lemma bcmAuxNoState_length {npre npost : ℕ} (eta theta w_min w_max : ℚ) :
    ∀ (ps : List (Fin npre → Bool)) (qs : List (Fin npost → Bool)) W,
    (bcmAuxNoState eta theta w_min w_max ps qs W).length = ps.length
  | [], _, _ => rfl
  | _ :: ps, qs, W => by
    simp only [bcmAuxNoState, List.length_cons]
    rw [bcmAuxNoState_length eta theta w_min w_max ps qs.tail]

/-- Every snapshot emitted by the STDP time loop is clipped, hence lies in
`[w_min, w_max]` (given `w_min ≤ w_max`). -/
lemma stdpAux_mem_bounds {npre npost : ℕ}
    (eta decayPlus decayMinus a_plus a_minus w_min w_max : ℚ) (hw : w_min ≤ w_max) :
    ∀ (ps : List (Fin npre → Bool)) (qs : List (Fin npost → Bool)) st,
    ∀ W ∈ stdpAux eta decayPlus decayMinus a_plus a_minus w_min w_max ps qs st,
    ∀ i j, w_min ≤ W i j ∧ W i j ≤ w_max
  | [], _, _ => by intro W hW; simp [stdpAux] at hW
  | p :: ps, qs, st => by
    intro W hW i j
    rcases List.mem_cons.mp hW with h | h
    · subst h
      obtain ⟨y, hy⟩ := stdpStep_W_clip eta decayPlus decayMinus a_plus a_minus w_min w_max
        p (qs.headD (fun _ => false)) st i j
      rw [hy]
      exact ⟨le_clip y hw, clip_le_right y w_min w_max⟩
    · exact stdpAux_mem_bounds eta decayPlus decayMinus a_plus a_minus w_min w_max hw
        ps qs.tail _ W h i j

/-- One Hebbian step preserves entrywise bounds. -/
lemma hebbStep_bounds {npre npost : ℕ} (eta w_min w_max : ℚ) (hw : w_min ≤ w_max)
    (preRow : Fin npre → Bool) (postRow : Fin npost → Bool)
    (W : Fin npre → Fin npost → ℚ) (hW : ∀ i j, w_min ≤ W i j ∧ W i j ≤ w_max) :
    ∀ i j, w_min ≤ hebbStep eta w_min w_max preRow postRow W i j
      ∧ hebbStep eta w_min w_max preRow postRow W i j ≤ w_max := by
  intro i j
  unfold hebbStep
  split
  · exact ⟨le_clip _ hw, clip_le_right _ _ _⟩
  · exact hW i j

lemma hebbAux_mem_bounds {npre npost : ℕ} (eta w_min w_max : ℚ) (hw : w_min ≤ w_max) :
    ∀ (ps : List (Fin npre → Bool)) (qs : List (Fin npost → Bool)) W,
    (∀ i j, w_min ≤ W i j ∧ W i j ≤ w_max) →
    ∀ M ∈ hebbAux eta w_min w_max ps qs W, ∀ i j, w_min ≤ M i j ∧ M i j ≤ w_max
  | [], _, _ => by intro _ M hM; simp [hebbAux] at hM
  | p :: ps, qs, W => by
    intro hW M hM i j
    have hW2 := hebbStep_bounds eta w_min w_max hw p (qs.headD (fun _ => false)) W hW
    rcases List.mem_cons.mp hM with h | h
    · subst h; exact hW2 i j
    · exact hebbAux_mem_bounds eta w_min w_max hw ps qs.tail _ hW2 M h i j

/-- One activity-free BCM step preserves entrywise bounds. -/
lemma bcmStepNoState_bounds {npre npost : ℕ} (eta theta w_min w_max : ℚ)
    (hw : w_min ≤ w_max)
    (preRow : Fin npre → Bool) (postRow : Fin npost → Bool)
    (W : Fin npre → Fin npost → ℚ) (hW : ∀ i j, w_min ≤ W i j ∧ W i j ≤ w_max) :
    ∀ i j, w_min ≤ bcmStepNoState eta theta w_min w_max preRow postRow W i j
      ∧ bcmStepNoState eta theta w_min w_max preRow postRow W i j ≤ w_max := by
  intro i j
  unfold bcmStepNoState
  split
  · exact ⟨le_clip _ hw, clip_le_right _ _ _⟩
  · exact hW i j

lemma bcmAuxNoState_mem_bounds {npre npost : ℕ} (eta theta w_min w_max : ℚ)
    (hw : w_min ≤ w_max) :
    ∀ (ps : List (Fin npre → Bool)) (qs : List (Fin npost → Bool)) W,
    (∀ i j, w_min ≤ W i j ∧ W i j ≤ w_max) →
    ∀ M ∈ bcmAuxNoState eta theta w_min w_max ps qs W,
    ∀ i j, w_min ≤ M i j ∧ M i j ≤ w_max
  | [], _, _ => by intro _ M hM; simp [bcmAuxNoState] at hM
  | p :: ps, qs, W => by
    intro hW M hM i j
    have hW2 := bcmStepNoState_bounds eta theta w_min w_max hw p
      (qs.headD (fun _ => false)) W hW
    rcases List.mem_cons.mp hM with h | h
    · subst h; exact hW2 i j
    · exact bcmAuxNoState_mem_bounds eta theta w_min w_max hw ps qs.tail _ hW2 M h i j

/-- With an all-silent pre population and an in-bounds weight matrix, the
STDP loop leaves the pre trace at zero and the weight matrix unchanged:
potentiation adds `eta * a_plus * 0` and the clip is the identity. -/
lemma stdpAux_const_of_pre_silent {npre npost : ℕ}
    (eta decayPlus decayMinus a_plus a_minus w_min w_max : ℚ) (hw : w_min ≤ w_max)
    (w0 : Fin npre → Fin npost → ℚ) (hinit : ∀ i j, w_min ≤ w0 i j ∧ w0 i j ≤ w_max) :
    ∀ (ps : List (Fin npre → Bool)) (qs : List (Fin npost → Bool))
      (st : (Fin npre → ℚ) × (Fin npost → ℚ) × (Fin npre → Fin npost → ℚ)),
    (∀ r ∈ ps, ∀ i, r i = false) →
    (∀ i, st.1 i = 0) → (∀ i j, st.2.2 i j = w0 i j) →
    ∀ M ∈ stdpAux eta decayPlus decayMinus a_plus a_minus w_min w_max ps qs st, M = w0
  | [], _, _ => by intro _ _ _ M hM; simp [stdpAux] at hM
  | p :: ps, qs, st => by
    intro hsil htr hWeq M hM
    have hp : ∀ i, p i = false := hsil p (List.mem_cons_self p ps)
    set st2 := stdpStep eta decayPlus decayMinus a_plus a_minus w_min w_max
      p (qs.headD (fun _ => false)) st with hst2
    have htr2 : ∀ i, st2.1 i = 0 := by
      intro i
      rw [hst2, stdpStep_preTrace]
      simp [htr i, hp i, b2q]
    have hWeq2 : ∀ i j, st2.2.2 i j = w0 i j := by
      intro i j
      rw [hst2, stdpStep_W]
      simp only [hp i, b2q, if_neg Bool.false_ne_true, htr i, hWeq i j]
      rw [zero_mul, sub_zero, zero_mul, zero_add, mul_zero, mul_zero, add_zero]
      exact clip_eq_self (hinit i j).1 (hinit i j).2
    rcases List.mem_cons.mp hM with h | h
    · subst h
      funext i j
      exact hWeq2 i j
    · exact stdpAux_const_of_pre_silent eta decayPlus decayMinus a_plus a_minus w_min w_max
        hw w0 hinit ps qs.tail st2 (fun r hr => hsil r (List.mem_cons_of_mem p hr))
        htr2 hWeq2 M h

/-- With an all-silent pre population the Hebbian gate never opens, so the
loop never touches the weight matrix. -/
lemma hebbAux_const_of_pre_silent {npre npost : ℕ} (eta w_min w_max : ℚ) :
    ∀ (ps : List (Fin npre → Bool)) (qs : List (Fin npost → Bool))
      (W : Fin npre → Fin npost → ℚ),
    (∀ r ∈ ps, ∀ i, r i = false) →
    ∀ M ∈ hebbAux eta w_min w_max ps qs W, M = W
  | [], _, _ => by intro _ M hM; simp [hebbAux] at hM
  | p :: ps, qs, W => by
    intro hsil M hM
    have hp : ∀ i, p i = false := hsil p (List.mem_cons_self p ps)
    have hstep : hebbStep eta w_min w_max p (qs.headD (fun _ => false)) W = W := by
      unfold hebbStep
      exact if_neg (gate_closed_of_pre_silent _ hp)
    simp only [hebbAux] at hM
    rw [hstep] at hM
    rcases List.mem_cons.mp hM with h | h
    · exact h
    · exact hebbAux_const_of_pre_silent eta w_min w_max ps qs.tail W
        (fun r hr => hsil r (List.mem_cons_of_mem p hr)) M h

/-- With an all-silent pre population the BCM gate never opens either; the
running average keeps evolving but the weight matrix is never touched. -/
lemma bcmAux_const_of_pre_silent {npre npost : ℕ} (eta theta w_min w_max decayAvg : ℚ) :
    ∀ (ps : List (Fin npre → Bool)) (qs : List (Fin npost → Bool))
      (a : Fin npost → ℚ) (W : Fin npre → Fin npost → ℚ),
    (∀ r ∈ ps, ∀ i, r i = false) →
    ∀ M ∈ bcmAux eta theta w_min w_max decayAvg ps qs (a, W), M = W
  | [], _, _, _ => by intro _ M hM; simp [bcmAux] at hM
  | p :: ps, qs, a, W => by
    intro hsil M hM
    have hp : ∀ i, p i = false := hsil p (List.mem_cons_self p ps)
    have hstep : bcmStep eta theta w_min w_max decayAvg p (qs.headD (fun _ => false)) (a, W)
        = ((fun j => a j * decayAvg + b2q (qs.headD (fun _ => false) j)), W) := by
      simp only [bcmStep]
      exact if_neg (gate_closed_of_pre_silent _ hp)
    simp only [bcmAux] at hM
    rw [hstep] at hM
    rcases List.mem_cons.mp hM with h | h
    · exact h
    · exact bcmAux_const_of_pre_silent eta theta w_min w_max decayAvg ps qs.tail _ W
        (fun r hr => hsil r (List.mem_cons_of_mem p hr)) M h

/-- Index characterization of the Hebbian trajectory (without the initial
snapshot): element `t` is one `hebbStep` applied to the previous value. -/
lemma hebbAux_getD {npre npost : ℕ} (eta w_min w_max : ℚ)
    (d : Fin npre → Fin npost → ℚ) :
    ∀ (ps : List (Fin npre → Bool)) (qs : List (Fin npost → Bool))
      (W : Fin npre → Fin npost → ℚ) (t : ℕ), t < ps.length →
    (hebbAux eta w_min w_max ps qs W).getD t d
      = hebbStep eta w_min w_max (ps.getD t (fun _ => false)) (qs.getD t (fun _ => false))
          (if t = 0 then W else (hebbAux eta w_min w_max ps qs W).getD (t - 1) d)
  | [], _, _, t => by intro ht; simp at ht
  | p :: ps, qs, W, 0 => by
    intro _
    simp only [hebbAux, List.getD_cons_zero, if_pos]
    rw [headD_eq_getD]
  | p :: ps, qs, W, t + 1 => by
    intro ht
    have ht2 : t < ps.length := by simpa using ht
    simp only [hebbAux, List.getD_cons_succ]
    rw [hebbAux_getD eta w_min w_max d ps qs.tail _ t ht2]
    rw [tail_getD]
    cases t with
    | zero => simp [hebbAux]
    | succ s =>
      simp only [Nat.succ_sub_one, if_neg (Nat.succ_ne_zero s), if_neg (Nat.succ_ne_zero (s+1))]
      simp [hebbAux]

/-- Successor-index recurrence of the full Hebbian trajectory. -/
lemma hebbian_getD_succ {npre npost : ℕ}
    (pre_spikes : List (Fin npre → Bool)) (post_spikes : List (Fin npost → Bool))
    (w_init : Fin npre → Fin npost → ℚ) (eta w_min w_max : ℚ)
    (d : Fin npre → Fin npost → ℚ) (t : ℕ) (ht : t < pre_spikes.length) :
    (hebbian_learning pre_spikes post_spikes w_init eta w_min w_max).getD (t + 1) d
      = hebbStep eta w_min w_max (pre_spikes.getD t (fun _ => false))
          (post_spikes.getD t (fun _ => false))
          ((hebbian_learning pre_spikes post_spikes w_init eta w_min w_max).getD t d) := by
  unfold hebbian_learning
  rw [List.getD_cons_succ]
  rw [hebbAux_getD eta w_min w_max d pre_spikes post_spikes w_init t ht]
  cases t with
  | zero => simp
  | succ s => simp

/-- Index characterization of the activity-free BCM trajectory. -/
lemma bcmAuxNoState_getD {npre npost : ℕ} (eta theta w_min w_max : ℚ)
    (d : Fin npre → Fin npost → ℚ) :
    ∀ (ps : List (Fin npre → Bool)) (qs : List (Fin npost → Bool))
      (W : Fin npre → Fin npost → ℚ) (t : ℕ), t < ps.length →
    (bcmAuxNoState eta theta w_min w_max ps qs W).getD t d
      = bcmStepNoState eta theta w_min w_max (ps.getD t (fun _ => false))
          (qs.getD t (fun _ => false))
          (if t = 0 then W else (bcmAuxNoState eta theta w_min w_max ps qs W).getD (t - 1) d)
  | [], _, _, t => by intro ht; simp at ht
  | p :: ps, qs, W, 0 => by
    intro _
    simp only [bcmAuxNoState, List.getD_cons_zero, if_pos]
    rw [headD_eq_getD]
  | p :: ps, qs, W, t + 1 => by
    intro ht
    have ht2 : t < ps.length := by simpa using ht
    simp only [bcmAuxNoState, List.getD_cons_succ]
    rw [bcmAuxNoState_getD eta theta w_min w_max d ps qs.tail _ t ht2]
    rw [tail_getD]
    cases t with
    | zero => simp [bcmAuxNoState]
    | succ s =>
      simp only [Nat.succ_sub_one, if_neg (Nat.succ_ne_zero s), if_neg (Nat.succ_ne_zero (s+1))]
      simp [bcmAuxNoState]

/-- Successor-index recurrence of the full BCM trajectory: the next
snapshot is the gated, activity-free update of the previous one. -/
lemma bcm_getD_succ {npre npost : ℕ}
    (pre_spikes : List (Fin npre → Bool)) (post_spikes : List (Fin npost → Bool))
    (w_init : Fin npre → Fin npost → ℚ) (eta theta w_min w_max decayAvg : ℚ)
    (d : Fin npre → Fin npost → ℚ) (t : ℕ) (ht : t < pre_spikes.length) :
    (bcm_learning pre_spikes post_spikes w_init eta theta w_min w_max decayAvg).getD (t + 1) d
      = bcmStepNoState eta theta w_min w_max (pre_spikes.getD t (fun _ => false))
          (post_spikes.getD t (fun _ => false))
          ((bcm_learning pre_spikes post_spikes w_init eta theta w_min w_max decayAvg).getD t d) := by
  unfold bcm_learning
  rw [bcmAux_eq_nostate]
  rw [List.getD_cons_succ]
  rw [bcmAuxNoState_getD eta theta w_min w_max d pre_spikes post_spikes w_init t ht]
  cases t with
  | zero => simp
  | succ s => simp

/-- Index characterization of the LIF loop: element `t` is one `lifStep`
applied at draw index `k + t` to the previous potential. -/
lemma lifLoop_getD (alpha v_rest v_reset v_th i_dc nc : ℚ) (randn : ℕ → ℚ)
    (d : ℚ × Bool) :
    ∀ (m t k : ℕ) (vp : ℚ), t < m →
    (lifLoop alpha v_rest v_reset v_th i_dc nc randn m k vp).getD t d
      = lifStep alpha v_rest v_reset v_th i_dc nc randn (k + t)
          (if t = 0 then vp
           else ((lifLoop alpha v_rest v_reset v_th i_dc nc randn m k vp).getD (t - 1) d).1)
  | 0, t, _, _ => by intro ht; simp at ht
  | m + 1, 0, k, vp => by
    intro _
    simp [lifLoop]
  | m + 1, t + 1, k, vp => by
    intro ht
    have ht2 : t < m := by simpa using ht
    simp only [lifLoop, List.getD_cons_succ]
    rw [lifLoop_getD alpha v_rest v_reset v_th i_dc nc randn d m t (k + 1) _ ht2]
    have harith : k + 1 + t = k + (t + 1) := by omega
    rw [harith]
    congr 1
    cases t with
    | zero => simp [lifLoop]
    | succ s =>
      simp only [Nat.succ_sub_one, if_neg (Nat.succ_ne_zero s), if_neg (Nat.succ_ne_zero (s+1))]
      simp [lifLoop]

lemma lifPairs_length (alpha v_rest v_reset v_th i_dc nc : ℚ) (randn : ℕ → ℚ) (n : ℕ) :
    (lifPairs alpha v_rest v_reset v_th i_dc nc randn n).length = n - 1 + 1 := by
  simp [lifPairs, lifLoop_length]

/-- Successor-index recurrence of the `(v, spikes)` pair trace. -/
lemma lifPairs_getD_succ (alpha v_rest v_reset v_th i_dc nc : ℚ) (randn : ℕ → ℚ)
    (n k : ℕ) (hk1 : 1 ≤ k) (hkn : k < n) (d : ℚ × Bool) :
    (lifPairs alpha v_rest v_reset v_th i_dc nc randn n).getD k d
      = lifStep alpha v_rest v_reset v_th i_dc nc randn k
          (((lifPairs alpha v_rest v_reset v_th i_dc nc randn n).getD (k - 1) d).1) := by
  obtain ⟨s, rfl⟩ : ∃ s, k = s + 1 := ⟨k - 1, by omega⟩
  unfold lifPairs
  rw [List.getD_cons_succ]
  rw [lifLoop_getD alpha v_rest v_reset v_th i_dc nc randn d (n - 1) s 1 v_rest (by omega)]
  have harith : 1 + s = s + 1 := by omega
  rw [harith]
  congr 1
  cases s with
  | zero => simp
  | succ u =>
    simp only [Nat.succ_sub_one, if_neg (Nat.succ_ne_zero u), Nat.add_sub_cancel,
      List.getD_cons_succ]

/-- Under positive `dt`, positive `T` and nonzero `tau`, `simulate_lif`
reaches the loop and returns the mapped pair trace. -/
lemma simulate_lif_ok (tau dt T v_rest v_reset v_th i_dc noise_sigma sqrtDt : ℚ)
    (randn : ℕ → ℚ) (hdt : 0 < dt) (hT : 0 < T) (htau : tau ≠ 0) :
    simulate_lif tau dt T v_rest v_reset v_th i_dc noise_sigma sqrtDt randn
      = .ok ((lifPairs (dt / tau) v_rest v_reset v_th i_dc (noise_sigma * sqrtDt) randn
            (⌈T / dt⌉).toNat).map Prod.fst,
          (lifPairs (dt / tau) v_rest v_reset v_th i_dc (noise_sigma * sqrtDt) randn
            (⌈T / dt⌉).toNat).map Prod.snd) := by
  have hpos : (0 : ℚ) < T / dt := div_pos hT hdt
  have hceil : 0 < ⌈T / dt⌉ := Int.ceil_pos.mpr hpos
  simp only [simulate_lif]
  rw [if_neg hdt.ne', if_neg (not_lt.mpr hceil.le), if_neg hceil.ne', if_neg htau]

lemma ceil_toNat_pos {T dt : ℚ} (hdt : 0 < dt) (hT : 0 < T) : 0 < (⌈T / dt⌉).toNat := by
  have hceil : 0 < ⌈T / dt⌉ := Int.ceil_pos.mpr (div_pos hT hdt)
  omega

/-- When `post_spikes` has at least as many rows as `pre_spikes`, the
exception-aware Hebbian loop never faults and agrees with the totalised
one. -/
lemma hebbAuxExc_ok_of_le {npre npost : ℕ} (eta w_min w_max : ℚ) :
    ∀ (ps : List (Fin npre → Bool)) (qs : List (Fin npost → Bool))
      (W : Fin npre → Fin npost → ℚ),
    ps.length ≤ qs.length →
    hebbAuxExc eta w_min w_max ps qs W = .ok (hebbAux eta w_min w_max ps qs W)
  | [], _, _ => by intro _; rfl
  | p :: ps, [], W => by
    intro hle
    simp at hle
  | p :: ps, q :: qs, W => by
    intro hle
    have hle2 : ps.length ≤ qs.length := by simpa using hle
    simp only [hebbAuxExc, hebbAux, List.headD_cons, List.tail_cons]
    by_cases hp : rowSum p > 0
    · rw [if_pos hp, hebbAuxExc_ok_of_le eta w_min w_max ps qs _ hle2]
      rfl
    · rw [if_neg hp]
      have hstep : hebbStep eta w_min w_max p q W = W := by
        unfold hebbStep
        exact if_neg (fun hc => hp hc.1)
      rw [hstep, hebbAuxExc_ok_of_le eta w_min w_max ps qs W hle2]
      rfl

/-- When some step past the end of `post_spikes` has a spiking pre row,
the exception-aware Hebbian loop raises `IndexError` (mid-loop, at the
first such step). -/
lemma hebbAuxExc_error {npre npost : ℕ} (eta w_min w_max : ℚ) :
    ∀ (ps : List (Fin npre → Bool)) (qs : List (Fin npost → Bool))
      (W : Fin npre → Fin npost → ℚ) (t : ℕ),
    qs.length ≤ t → t < ps.length → rowSum (ps.getD t (fun _ => false)) > 0 →
    hebbAuxExc eta w_min w_max ps qs W = .error "IndexError"
  | [], _, _, t => by
    intro _ ht _
    simp at ht
  | p :: ps, qs, W, 0 => by
    intro hq ht hrow
    have hqnil : qs = [] := List.length_eq_zero.mp (Nat.le_zero.mp hq)
    subst hqnil
    simp only [List.getD_cons_zero] at hrow
    simp only [hebbAuxExc]
    rw [if_pos hrow]
  | p :: ps, [], W, t + 1 => by
    intro hq ht hrow
    have ht2 : t < ps.length := by simpa using ht
    have hrow2 : rowSum (ps.getD t (fun _ => false)) > 0 := by simpa using hrow
    simp only [hebbAuxExc]
    by_cases hp : rowSum p > 0
    · rw [if_pos hp]
    · rw [if_neg hp, hebbAuxExc_error eta w_min w_max ps [] W t (by simp) ht2 hrow2]
      rfl
  | p :: ps, q :: qs, W, t + 1 => by
    intro hq ht hrow
    have ht2 : t < ps.length := by simpa using ht
    have hrow2 : rowSum (ps.getD t (fun _ => false)) > 0 := by simpa using hrow
    have hq2 : qs.length ≤ t := by simpa using hq
    simp only [hebbAuxExc]
    by_cases hp : rowSum p > 0
    · rw [if_pos hp, hebbAuxExc_error eta w_min w_max ps qs _ t hq2 ht2 hrow2]
      rfl
    · rw [if_neg hp, hebbAuxExc_error eta w_min w_max ps qs W t hq2 ht2 hrow2]
      rfl

/-- When every step past the end of `post_spikes` has a silent pre row,
the exception-aware Hebbian loop never indexes past the end and completes
without error: the shape mismatch goes undetected. -/
lemma hebbAuxExc_ok_of_silent_tail {npre npost : ℕ} (eta w_min w_max : ℚ) :
    ∀ (ps : List (Fin npre → Bool)) (qs : List (Fin npost → Bool))
      (W : Fin npre → Fin npost → ℚ),
    (∀ t, qs.length ≤ t → t < ps.length → ¬ rowSum (ps.getD t (fun _ => false)) > 0) →
    ∃ traj, hebbAuxExc eta w_min w_max ps qs W = .ok traj ∧ traj.length = ps.length
  | [], _, _ => by
    intro _
    exact ⟨[], rfl, rfl⟩
  | p :: ps, [], W => by
    intro hsil
    have hp : ¬ rowSum p > 0 := by
      have := hsil 0 (by simp) (by simp)
      simpa using this
    obtain ⟨traj, htraj, hlen⟩ := hebbAuxExc_ok_of_silent_tail eta w_min w_max ps [] W
      (fun t _ ht => by simpa using hsil (t + 1) (by simp) (by simpa using ht))
    refine ⟨W :: traj, ?_, by simp [hlen]⟩
    simp only [hebbAuxExc]
    rw [if_neg hp, htraj]
    rfl
  | p :: ps, q :: qs, W => by
    intro hsil
    have hsil2 : ∀ t, qs.length ≤ t → t < ps.length →
        ¬ rowSum (ps.getD t (fun _ => false)) > 0 := by
      intro t hq ht
      have := hsil (t + 1) (by simpa using hq) (by simpa using ht)
      simpa using this
    simp only [hebbAuxExc]
    by_cases hp : rowSum p > 0
    · rw [if_pos hp]
      obtain ⟨traj, htraj, hlen⟩ := hebbAuxExc_ok_of_silent_tail eta w_min w_max ps qs
        (hebbStep eta w_min w_max p q W) hsil2
      refine ⟨hebbStep eta w_min w_max p q W :: traj, ?_, by simp [hlen]⟩
      rw [htraj]
      rfl
    · rw [if_neg hp]
      obtain ⟨traj, htraj, hlen⟩ := hebbAuxExc_ok_of_silent_tail eta w_min w_max ps qs W hsil2
      refine ⟨W :: traj, ?_, by simp [hlen]⟩
      rw [htraj]
      rfl

/-! ### Claim theorems -/

/-- C4: In every STDP step the operations occur in this exact order: both
traces decay; then each spiking pre neuron increments its trace entry and
depresses its row using the already-decayed, not-yet-incremented post
trace; then each spiking post neuron increments its trace entry and
potentiates its column using the pre trace after the pre-phase increments;
finally the matrix is clamped.  Hence a coincident pre+post spike causes
both a depression with the pre-update post trace and a potentiation with
the just-incremented pre trace. -/
theorem c4_stdp_step_ordering {npre npost : ℕ}
    (eta decayPlus decayMinus a_plus a_minus w_min w_max : ℚ)
    (preRow : Fin npre → Bool) (postRow : Fin npost → Bool)
    (st : (Fin npre → ℚ) × (Fin npost → ℚ) × (Fin npre → Fin npost → ℚ)) :
    stdpStep eta decayPlus decayMinus a_plus a_minus w_min w_max preRow postRow st
      = ((fun i => st.1 i * decayPlus + b2q (preRow i)),
         (fun j => st.2.1 j * decayMinus + b2q (postRow j)),
         (fun i j => clip (st.2.2 i j
             - b2q (preRow i) * (eta * a_minus * (st.2.1 j * decayMinus))
             + b2q (postRow j) * (eta * a_plus * (st.1 i * decayPlus + b2q (preRow i))))
             w_min w_max)) := by
  have h1 := funext fun i =>
    stdpStep_preTrace eta decayPlus decayMinus a_plus a_minus w_min w_max preRow postRow st i
  have h2 := funext fun j =>
    stdpStep_postTrace eta decayPlus decayMinus a_plus a_minus w_min w_max preRow postRow st j
  have h3 := funext fun i => funext fun j =>
    stdpStep_W eta decayPlus decayMinus a_plus a_minus w_min w_max preRow postRow st i j
  calc stdpStep eta decayPlus decayMinus a_plus a_minus w_min w_max preRow postRow st
      = ((stdpStep eta decayPlus decayMinus a_plus a_minus w_min w_max preRow postRow st).1,
         (stdpStep eta decayPlus decayMinus a_plus a_minus w_min w_max preRow postRow st).2.1,
         (stdpStep eta decayPlus decayMinus a_plus a_minus w_min w_max preRow postRow st).2.2) := rfl
    _ = _ := by rw [h1, h2, h3]

/-- C10: the WeightTrajectory returned by the BCM rule is independent of
the running post-synaptic activity average and of `tau_avg`: for every
decay factor `decayAvg = exp(-dt/tau_avg)`, the run equals the run of the
rule with the `post_activity` state removed. -/
theorem c10_bcm_activity_unused {npre npost : ℕ}
    (pre_spikes : List (Fin npre → Bool)) (post_spikes : List (Fin npost → Bool))
    (w_init : Fin npre → Fin npost → ℚ) (eta theta w_min w_max : ℚ) :
    ∀ decayAvg : ℚ,
    bcm_learning pre_spikes post_spikes w_init eta theta w_min w_max decayAvg
      = bcm_learning_nostate pre_spikes post_spikes w_init eta theta w_min w_max := by
  intro decayAvg
  unfold bcm_learning bcm_learning_nostate
  rw [bcmAux_eq_nostate]

/-- C3: every run of the three plasticity rules over `n_steps` steps
returns a trajectory of length exactly `n_steps + 1` whose first element
is `w_init` itself, with no decay or clamp applied to that initial
snapshot. -/
theorem c3_trajectory_length_and_seed {npre npost : ℕ}
    (pre_spikes : List (Fin npre → Bool)) (post_spikes : List (Fin npost → Bool))
    (w_init : Fin npre → Fin npost → ℚ)
    (eta decayPlus decayMinus a_plus a_minus theta decayAvg w_min w_max : ℚ)
    (hlen : post_spikes.length = pre_spikes.length) :
    ((stdp_learning pre_spikes post_spikes w_init eta decayPlus decayMinus a_plus a_minus
        w_min w_max).length = pre_spikes.length + 1
      ∧ (stdp_learning pre_spikes post_spikes w_init eta decayPlus decayMinus a_plus a_minus
        w_min w_max).getD 0 (fun _ _ => 0) = w_init)
    ∧ ((hebbian_learning pre_spikes post_spikes w_init eta w_min w_max).length
        = pre_spikes.length + 1
      ∧ (hebbian_learning pre_spikes post_spikes w_init eta w_min w_max).getD 0
        (fun _ _ => 0) = w_init)
    ∧ ((bcm_learning pre_spikes post_spikes w_init eta theta w_min w_max decayAvg).length
        = pre_spikes.length + 1
      ∧ (bcm_learning pre_spikes post_spikes w_init eta theta w_min w_max decayAvg).getD 0
        (fun _ _ => 0) = w_init) := by
  refine ⟨⟨?_, rfl⟩, ⟨?_, rfl⟩, ⟨?_, rfl⟩⟩
  · simp [stdp_learning, stdpAux_length]
  · simp [hebbian_learning, hebbAux_length]
  · simp [bcm_learning, bcmAux_length]

/-- Witness for C3 at a concrete one-step, one-neuron run. -/
theorem c3_witness :
    ([(fun _ => true : Fin 1 → Bool)].length = [(fun _ => true : Fin 1 → Bool)].length)
    ∧ (((stdp_learning [(fun _ => true : Fin 1 → Bool)] [(fun _ => true : Fin 1 → Bool)]
          (fun _ _ => 0) 1 1 1 1 1 0 1).length = [(fun _ => true : Fin 1 → Bool)].length + 1
        ∧ (stdp_learning [(fun _ => true : Fin 1 → Bool)] [(fun _ => true : Fin 1 → Bool)]
          (fun _ _ => 0) 1 1 1 1 1 0 1).getD 0 (fun _ _ => 0) = fun _ _ => 0)
      ∧ ((hebbian_learning [(fun _ => true : Fin 1 → Bool)] [(fun _ => true : Fin 1 → Bool)]
          (fun _ _ => 0) 1 0 1).length = [(fun _ => true : Fin 1 → Bool)].length + 1
        ∧ (hebbian_learning [(fun _ => true : Fin 1 → Bool)] [(fun _ => true : Fin 1 → Bool)]
          (fun _ _ => 0) 1 0 1).getD 0 (fun _ _ => 0) = fun _ _ => 0)
      ∧ ((bcm_learning [(fun _ => true : Fin 1 → Bool)] [(fun _ => true : Fin 1 → Bool)]
          (fun _ _ => 0) 1 1 0 1 1).length = [(fun _ => true : Fin 1 → Bool)].length + 1
        ∧ (bcm_learning [(fun _ => true : Fin 1 → Bool)] [(fun _ => true : Fin 1 → Bool)]
          (fun _ _ => 0) 1 1 0 1 1).getD 0 (fun _ _ => 0) = fun _ _ => 0)) :=
  ⟨rfl, c3_trajectory_length_and_seed _ _ _ 1 1 1 1 1 1 1 0 1 rfl⟩

/-- C1 (amended): with `w_min ≤ w_max` and every entry of `w_init` already
inside `[w_min, w_max]`, every entry of every snapshot of the trajectories
of STDP, Hebbian and BCM lies in `[w_min, w_max]` at every step.  (The
unamended claim fails: the initial snapshot is never clamped, and Hebbian
and BCM do not clamp on steps whose update gate is closed, so an
out-of-bounds `w_init` survives into the trajectory.) -/
theorem c1_weight_bounds_invariant {npre npost : ℕ}
    (pre_spikes : List (Fin npre → Bool)) (post_spikes : List (Fin npost → Bool))
    (w_init : Fin npre → Fin npost → ℚ)
    (eta decayPlus decayMinus a_plus a_minus theta decayAvg w_min w_max : ℚ)
    (hw : w_min ≤ w_max)
    (hinit : ∀ i j, w_min ≤ w_init i j ∧ w_init i j ≤ w_max)
    (hlen : post_spikes.length = pre_spikes.length) :
    (∀ W ∈ stdp_learning pre_spikes post_spikes w_init eta decayPlus decayMinus a_plus
        a_minus w_min w_max, ∀ i j, w_min ≤ W i j ∧ W i j ≤ w_max)
    ∧ (∀ W ∈ hebbian_learning pre_spikes post_spikes w_init eta w_min w_max,
        ∀ i j, w_min ≤ W i j ∧ W i j ≤ w_max)
    ∧ (∀ W ∈ bcm_learning pre_spikes post_spikes w_init eta theta w_min w_max decayAvg,
        ∀ i j, w_min ≤ W i j ∧ W i j ≤ w_max) := by
  refine ⟨?_, ?_, ?_⟩
  · intro W hW i j
    simp only [stdp_learning] at hW
    rcases List.mem_cons.mp hW with h | h
    · subst h; exact hinit i j
    · exact stdpAux_mem_bounds eta decayPlus decayMinus a_plus a_minus w_min w_max hw
        pre_spikes post_spikes _ W h i j
  · intro W hW i j
    simp only [hebbian_learning] at hW
    rcases List.mem_cons.mp hW with h | h
    · subst h; exact hinit i j
    · exact hebbAux_mem_bounds eta w_min w_max hw pre_spikes post_spikes w_init hinit W h i j
  · intro W hW i j
    simp only [bcm_learning, bcmAux_eq_nostate] at hW
    rcases List.mem_cons.mp hW with h | h
    · subst h; exact hinit i j
    · exact bcmAuxNoState_mem_bounds eta theta w_min w_max hw pre_spikes post_spikes
        w_init hinit W h i j

/-- Counterexample to C1 as stated: with valid rule parameters
(`eta = 1`, `w_min = 0 ≤ w_max = 1`) but a `w_init` entry equal to `5`,
the Hebbian trajectory of a run whose gate never opens contains a snapshot
(here even the initial one) with an entry outside `[w_min, w_max]`;
no clamping is ever applied to it. -/
theorem c1_counterexample :
    ¬ (∀ W ∈ hebbian_learning [(fun _ => false : Fin 1 → Bool)]
          [(fun _ => false : Fin 1 → Bool)] (fun _ _ => (5 : ℚ)) 1 0 1,
        ∀ i j, (0 : ℚ) ≤ W i j ∧ W i j ≤ 1) := by
  intro h
  have hmem : (fun _ _ => (5 : ℚ)) ∈ hebbian_learning [(fun _ => false : Fin 1 → Bool)]
      [(fun _ => false : Fin 1 → Bool)] (fun _ _ => (5 : ℚ)) 1 0 1 :=
    List.mem_cons_self _ _
  have h5 := (h _ hmem 0 0).2
  norm_num at h5

/-- Witness for C1 at a concrete one-step run with an in-bounds seed. -/
theorem c1_witness :
    ((0 : ℚ) ≤ 1 ∧ (∀ i j : Fin 1, (0 : ℚ) ≤ (fun _ _ => (0 : ℚ)) i j
        ∧ (fun _ _ => (0 : ℚ)) i j ≤ 1))
    ∧ ((∀ W ∈ stdp_learning [(fun _ => true : Fin 1 → Bool)] [(fun _ => true : Fin 1 → Bool)]
          (fun _ _ => 0) 1 1 1 1 1 0 1, ∀ i j, (0 : ℚ) ≤ W i j ∧ W i j ≤ 1)
      ∧ (∀ W ∈ hebbian_learning [(fun _ => true : Fin 1 → Bool)] [(fun _ => true : Fin 1 → Bool)]
          (fun _ _ => 0) 1 0 1, ∀ i j, (0 : ℚ) ≤ W i j ∧ W i j ≤ 1)
      ∧ (∀ W ∈ bcm_learning [(fun _ => true : Fin 1 → Bool)] [(fun _ => true : Fin 1 → Bool)]
          (fun _ _ => 0) 1 1 0 1 1, ∀ i j, (0 : ℚ) ≤ W i j ∧ W i j ≤ 1)) :=
  ⟨⟨by decide, by decide⟩,
   c1_weight_bounds_invariant _ _ _ 1 1 1 1 1 1 1 0 1 (by decide) (by decide) rfl⟩

/-- C8 (amended): with `w_min ≤ w_max` and every entry of `w_init` inside
`[w_min, w_max]`, a run with an all-zero `pre_spikes` matrix produces a
constant trajectory for STDP, Hebbian and BCM: every snapshot equals
`w_init`.  (For STDP the pre trace stays zero so potentiation adds zero;
for Hebbian and BCM the both-populations-must-spike gate never opens.  The
unamended claim fails for STDP because the clamp still runs on every step
and moves an out-of-bounds `w_init`.) -/
theorem c8_silent_pre_constant {npre npost : ℕ}
    (pre_spikes : List (Fin npre → Bool)) (post_spikes : List (Fin npost → Bool))
    (w_init : Fin npre → Fin npost → ℚ)
    (eta decayPlus decayMinus a_plus a_minus theta decayAvg w_min w_max : ℚ)
    (hw : w_min ≤ w_max)
    (hinit : ∀ i j, w_min ≤ w_init i j ∧ w_init i j ≤ w_max)
    (hlen : post_spikes.length = pre_spikes.length)
    (hpre : ∀ r ∈ pre_spikes, ∀ i, r i = false) :
    (∀ W ∈ stdp_learning pre_spikes post_spikes w_init eta decayPlus decayMinus a_plus
        a_minus w_min w_max, W = w_init)
    ∧ (∀ W ∈ hebbian_learning pre_spikes post_spikes w_init eta w_min w_max, W = w_init)
    ∧ (∀ W ∈ bcm_learning pre_spikes post_spikes w_init eta theta w_min w_max decayAvg,
        W = w_init) := by
  refine ⟨?_, ?_, ?_⟩
  · intro W hW
    simp only [stdp_learning] at hW
    rcases List.mem_cons.mp hW with h | h
    · exact h
    · exact stdpAux_const_of_pre_silent eta decayPlus decayMinus a_plus a_minus w_min w_max
        hw w_init hinit pre_spikes post_spikes _ hpre (fun i => rfl) (fun i j => rfl) W h
  · intro W hW
    simp only [hebbian_learning] at hW
    rcases List.mem_cons.mp hW with h | h
    · exact h
    · exact hebbAux_const_of_pre_silent eta w_min w_max pre_spikes post_spikes w_init hpre W h
  · intro W hW
    simp only [bcm_learning] at hW
    rcases List.mem_cons.mp hW with h | h
    · exact h
    · exact bcmAux_const_of_pre_silent eta theta w_min w_max decayAvg pre_spikes post_spikes
        _ w_init hpre W h

/-- Counterexample to C8 as stated: with an all-zero `pre_spikes` but a
`w_init` entry `5` outside `[w_min, w_max] = [0, 1]`, the STDP trajectory
is not constant — the per-step clamp moves the entry to `1` on the first
step even though no update fired. -/
theorem c8_counterexample :
    ¬ (∀ W ∈ stdp_learning [(fun _ => false : Fin 1 → Bool)]
          [(fun _ => false : Fin 1 → Bool)] (fun _ _ => (5 : ℚ)) 1 1 1 1 1 0 1,
        W = fun _ _ => (5 : ℚ)) := by
  intro h
  have hmem : (stdpStep 1 1 1 1 1 0 1 (fun _ => false : Fin 1 → Bool)
        (fun _ => false : Fin 1 → Bool) ((fun _ => 0), (fun _ => 0), (fun _ _ => (5 : ℚ)))).2.2
      ∈ stdp_learning [(fun _ => false : Fin 1 → Bool)] [(fun _ => false : Fin 1 → Bool)]
        (fun _ _ => (5 : ℚ)) 1 1 1 1 1 0 1 :=
    List.mem_cons_of_mem _ (List.mem_cons_self _ _)
  have heq := congrFun (congrFun (h _ hmem) 0) 0
  rw [stdpStep_W] at heq
  simp only [b2q] at heq
  norm_num [clip] at heq

/-- Witness for C8 at a concrete one-step run: silent pre population,
spiking post population, in-bounds seed. -/
theorem c8_witness :
    ((0 : ℚ) ≤ 1
      ∧ (∀ i j : Fin 1, (0 : ℚ) ≤ (fun _ _ => (0 : ℚ)) i j ∧ (fun _ _ => (0 : ℚ)) i j ≤ 1)
      ∧ (∀ r ∈ [(fun _ => false : Fin 1 → Bool)], ∀ i, r i = false))
    ∧ ((∀ W ∈ stdp_learning [(fun _ => false : Fin 1 → Bool)] [(fun _ => true : Fin 1 → Bool)]
          (fun _ _ => 0) 1 1 1 1 1 0 1, W = fun _ _ => 0)
      ∧ (∀ W ∈ hebbian_learning [(fun _ => false : Fin 1 → Bool)] [(fun _ => true : Fin 1 → Bool)]
          (fun _ _ => 0) 1 0 1, W = fun _ _ => 0)
      ∧ (∀ W ∈ bcm_learning [(fun _ => false : Fin 1 → Bool)] [(fun _ => true : Fin 1 → Bool)]
          (fun _ _ => 0) 1 1 0 1 1, W = fun _ _ => 0)) :=
  ⟨⟨by decide, by decide, by decide⟩,
   c8_silent_pre_constant _ _ _ 1 1 1 1 1 1 1 0 1 (by decide) (by decide) rfl (by decide)⟩

/-- C9: for Hebbian and BCM, on every step whose update gate does not fire
(no pre-population spike or no post-population spike), the appended
snapshot equals the previous one exactly — no clamping happens on that
step — and, in particular, a `w_init` with entries outside
`[w_min, w_max]` is carried forward unchanged until the first gated
update (the final two conjuncts place no bound hypothesis on `w_init`). -/
theorem c9_no_update_frame {npre npost : ℕ}
    (pre_spikes : List (Fin npre → Bool)) (post_spikes : List (Fin npost → Bool))
    (w_init : Fin npre → Fin npost → ℚ) (eta theta decayAvg w_min w_max : ℚ)
    (hlen : post_spikes.length = pre_spikes.length) (t : ℕ) (ht : t < pre_spikes.length)
    (hgate : ¬ (rowSum (pre_spikes.getD t (fun _ => false)) > 0
        ∧ rowSum (post_spikes.getD t (fun _ => false)) > 0)) :
    ((hebbian_learning pre_spikes post_spikes w_init eta w_min w_max).getD (t + 1)
        (fun _ _ => 0)
      = (hebbian_learning pre_spikes post_spikes w_init eta w_min w_max).getD t
        (fun _ _ => 0))
    ∧ ((bcm_learning pre_spikes post_spikes w_init eta theta w_min w_max decayAvg).getD (t + 1)
        (fun _ _ => 0)
      = (bcm_learning pre_spikes post_spikes w_init eta theta w_min w_max decayAvg).getD t
        (fun _ _ => 0))
    ∧ (∀ u, u ≤ pre_spikes.length →
      (∀ s, s < u → ¬ (rowSum (pre_spikes.getD s (fun _ => false)) > 0
          ∧ rowSum (post_spikes.getD s (fun _ => false)) > 0)) →
      (hebbian_learning pre_spikes post_spikes w_init eta w_min w_max).getD u
        (fun _ _ => 0) = w_init)
    ∧ (∀ u, u ≤ pre_spikes.length →
      (∀ s, s < u → ¬ (rowSum (pre_spikes.getD s (fun _ => false)) > 0
          ∧ rowSum (post_spikes.getD s (fun _ => false)) > 0)) →
      (bcm_learning pre_spikes post_spikes w_init eta theta w_min w_max decayAvg).getD u
        (fun _ _ => 0) = w_init) := by
  refine ⟨?_, ?_, ?_, ?_⟩
  · rw [hebbian_getD_succ pre_spikes post_spikes w_init eta w_min w_max _ t ht]
    unfold hebbStep
    exact if_neg hgate
  · rw [bcm_getD_succ pre_spikes post_spikes w_init eta theta w_min w_max decayAvg _ t ht]
    unfold bcmStepNoState
    exact if_neg hgate
  · intro u
    induction u with
    | zero => intro _ _; rfl
    | succ v ih =>
      intro hv hclosed
      rw [hebbian_getD_succ pre_spikes post_spikes w_init eta w_min w_max _ v (by omega)]
      rw [ih (by omega) (fun s hs => hclosed s (by omega))]
      unfold hebbStep
      exact if_neg (hclosed v (by omega))
  · intro u
    induction u with
    | zero => intro _ _; rfl
    | succ v ih =>
      intro hv hclosed
      rw [bcm_getD_succ pre_spikes post_spikes w_init eta theta w_min w_max decayAvg _ v
        (by omega)]
      rw [ih (by omega) (fun s hs => hclosed s (by omega))]
      unfold bcmStepNoState
      exact if_neg (hclosed v (by omega))

/-- Witness for C9: one step with a spiking pre population and a silent
post population, seed entry `5` outside the bounds `[0, 1]`. -/
theorem c9_witness :
    ((0 : ℕ) < 1
      ∧ ¬ (rowSum (fun _ => true : Fin 1 → Bool) > 0
          ∧ rowSum (fun _ => false : Fin 1 → Bool) > 0))
    ∧ (((hebbian_learning [(fun _ => true : Fin 1 → Bool)] [(fun _ => false : Fin 1 → Bool)]
          (fun _ _ => (5 : ℚ)) 1 0 1).getD 1 (fun _ _ => 0)
        = (hebbian_learning [(fun _ => true : Fin 1 → Bool)] [(fun _ => false : Fin 1 → Bool)]
          (fun _ _ => (5 : ℚ)) 1 0 1).getD 0 (fun _ _ => 0))
      ∧ (((bcm_learning [(fun _ => true : Fin 1 → Bool)] [(fun _ => false : Fin 1 → Bool)]
          (fun _ _ => (5 : ℚ)) 1 1 0 1 1).getD 1 (fun _ _ => 0)
        = (bcm_learning [(fun _ => true : Fin 1 → Bool)] [(fun _ => false : Fin 1 → Bool)]
          (fun _ _ => (5 : ℚ)) 1 1 0 1 1).getD 0 (fun _ _ => 0)))
      ∧ (∀ u, u ≤ [(fun _ => true : Fin 1 → Bool)].length →
        (∀ s, s < u → ¬ (rowSum ([(fun _ => true : Fin 1 → Bool)].getD s (fun _ => false)) > 0
            ∧ rowSum ([(fun _ => false : Fin 1 → Bool)].getD s (fun _ => false)) > 0)) →
        (hebbian_learning [(fun _ => true : Fin 1 → Bool)] [(fun _ => false : Fin 1 → Bool)]
          (fun _ _ => (5 : ℚ)) 1 0 1).getD u (fun _ _ => 0) = fun _ _ => (5 : ℚ))
      ∧ (∀ u, u ≤ [(fun _ => true : Fin 1 → Bool)].length →
        (∀ s, s < u → ¬ (rowSum ([(fun _ => true : Fin 1 → Bool)].getD s (fun _ => false)) > 0
            ∧ rowSum ([(fun _ => false : Fin 1 → Bool)].getD s (fun _ => false)) > 0)) →
        (bcm_learning [(fun _ => true : Fin 1 → Bool)] [(fun _ => false : Fin 1 → Bool)]
          (fun _ _ => (5 : ℚ)) 1 1 0 1 1).getD u (fun _ _ => 0) = fun _ _ => (5 : ℚ))) := by
  have hgate : ¬ (rowSum (fun _ => true : Fin 1 → Bool) > 0
      ∧ rowSum (fun _ => false : Fin 1 → Bool) > 0) := by
    intro hc
    have h0 : rowSum (fun _ => false : Fin 1 → Bool) = 0 := rowSum_eq_zero (fun _ => rfl)
    rw [h0] at hc
    exact absurd hc.2 (lt_irrefl 0)
  have hmain := c9_no_update_frame [(fun _ => true : Fin 1 → Bool)]
    [(fun _ => false : Fin 1 → Bool)] (fun _ _ => (5 : ℚ)) 1 1 1 0 1 rfl 0
    (by simp) (by simpa using hgate)
  exact ⟨⟨by omega, hgate⟩, hmain.1, hmain.2.1, hmain.2.2.1, hmain.2.2.2⟩

/-- C5: the LIF integrator starts from `V_0 = V_rest` (with no spike
recorded at step 0) and, for every step `1 ≤ k < n`, first computes
`V_k = V_{k-1} + (dt/tau)·(-(V_{k-1} - V_rest) + I) + noise_k` and only
afterwards tests `V_k ≥ V_th`; on a crossing it records a spike at step `k`
and overwrites `V_k` with `V_reset`, so the recorded trace value at a spike
step is the reset value, not the crossing value. -/
theorem c5_lif_integration (tau dt T v_rest v_reset v_th i_dc noise_sigma sqrtDt : ℚ)
    (randn : ℕ → ℚ) (hdt : 0 < dt) (hT : 0 < T) (htau : tau ≠ 0) :
    ∃ v s, simulate_lif tau dt T v_rest v_reset v_th i_dc noise_sigma sqrtDt randn
        = .ok (v, s)
      ∧ v.length = (⌈T / dt⌉).toNat
      ∧ s.length = (⌈T / dt⌉).toNat
      ∧ v.getD 0 0 = v_rest ∧ s.getD 0 false = false
      ∧ (∀ k, 1 ≤ k → k < (⌈T / dt⌉).toNat →
          ((v_th ≤ v.getD (k - 1) 0 + ((dt / tau) * (-(v.getD (k - 1) 0 - v_rest) + i_dc)
              + (noise_sigma * sqrtDt) * randn k)
            → v.getD k 0 = v_reset ∧ s.getD k false = true)
          ∧ (¬ v_th ≤ v.getD (k - 1) 0 + ((dt / tau) * (-(v.getD (k - 1) 0 - v_rest) + i_dc)
              + (noise_sigma * sqrtDt) * randn k)
            → v.getD k 0 = v.getD (k - 1) 0 + ((dt / tau) * (-(v.getD (k - 1) 0 - v_rest)
                + i_dc) + (noise_sigma * sqrtDt) * randn k)
              ∧ s.getD k false = false))) := by
  have hnpos : 0 < (⌈T / dt⌉).toNat := ceil_toNat_pos hdt hT
  set P := lifPairs (dt / tau) v_rest v_reset v_th i_dc (noise_sigma * sqrtDt) randn
    (⌈T / dt⌉).toNat with hP
  have hlen : P.length = (⌈T / dt⌉).toNat := by
    rw [hP, lifPairs_length]
    omega
  refine ⟨P.map Prod.fst, P.map Prod.snd,
    simulate_lif_ok tau dt T v_rest v_reset v_th i_dc noise_sigma sqrtDt randn hdt hT htau,
    ?_, ?_, ?_, ?_, ?_⟩
  · rw [List.length_map, hlen]
  · rw [List.length_map, hlen]
  · rw [getD_map_of_lt Prod.fst P 0 (by omega) 0 (0, false)]
    rfl
  · rw [getD_map_of_lt Prod.snd P 0 (by omega) false (0, false)]
    rfl
  · intro k hk1 hkn
    have hkP : k < P.length := by omega
    have hk1P : k - 1 < P.length := by omega
    rw [getD_map_of_lt Prod.fst P k hkP 0 (0, false),
      getD_map_of_lt Prod.snd P k hkP false (0, false),
      getD_map_of_lt Prod.fst P (k - 1) hk1P 0 (0, false)]
    have hstep := lifPairs_getD_succ (dt / tau) v_rest v_reset v_th i_dc
      (noise_sigma * sqrtDt) randn (⌈T / dt⌉).toNat k hk1 hkn (0, false)
    rw [← hP] at hstep
    rw [hstep]
    simp only [lifStep]
    by_cases hv : v_th ≤ (P.getD (k - 1) (0, false)).1
      + ((dt / tau) * (-((P.getD (k - 1) (0, false)).1 - v_rest) + i_dc)
        + (noise_sigma * sqrtDt) * randn k)
    · rw [if_pos hv]
      exact ⟨fun _ => ⟨rfl, rfl⟩, fun hneg => absurd hv hneg⟩
    · rw [if_neg hv]
      exact ⟨fun hcon => absurd hcon hv, fun _ => ⟨rfl, rfl⟩⟩

/-- Witness for C5 at a concrete run (`tau = dt = 1`, `T = 2`, strong
constant drive, no noise). -/
theorem c5_witness :
    (0 < (1 : ℚ)) ∧ (0 < (2 : ℚ)) ∧ ((1 : ℚ) ≠ 0)
    ∧ (∃ v s, simulate_lif 1 1 2 0 0 1 2 0 1 (fun _ => 0) = .ok (v, s)
      ∧ v.length = (⌈(2 : ℚ) / 1⌉).toNat
      ∧ s.length = (⌈(2 : ℚ) / 1⌉).toNat
      ∧ v.getD 0 0 = 0 ∧ s.getD 0 false = false
      ∧ (∀ k, 1 ≤ k → k < (⌈(2 : ℚ) / 1⌉).toNat →
          (((1 : ℚ) ≤ v.getD (k - 1) 0 + ((1 / 1) * (-(v.getD (k - 1) 0 - 0) + 2)
              + (0 * 1) * (fun _ => (0 : ℚ)) k)
            → v.getD k 0 = 0 ∧ s.getD k false = true)
          ∧ (¬ (1 : ℚ) ≤ v.getD (k - 1) 0 + ((1 / 1) * (-(v.getD (k - 1) 0 - 0) + 2)
              + (0 * 1) * (fun _ => (0 : ℚ)) k)
            → v.getD k 0 = v.getD (k - 1) 0 + ((1 / 1) * (-(v.getD (k - 1) 0 - 0) + 2)
                + (0 * 1) * (fun _ => (0 : ℚ)) k)
              ∧ s.getD k false = false)))) :=
  ⟨by decide, by decide, by decide,
   c5_lif_integration 1 1 2 0 0 1 2 0 1 (fun _ => 0) (by decide) (by decide) (by decide)⟩

/-- C6 (amended): the code performs no explicit configuration validation.
`dt = 0` faults with a `ZeroDivisionError` (from `T / dt`) and `tau = 0`
faults with a `ZeroDivisionError` (from `dt / tau`), both before the loop
body runs, but a negative `tau` is accepted and the integration runs to
completion.  The plasticity rules perform no shape check at call entry
either (shown here for Hebbian, with its `IndexError` path modelled
explicitly): a `post_spikes` with at least as many rows as `pre_spikes` —
equal or not — is processed silently, extra rows ignored, and the full
trajectory of `pre_spikes.length + 1` snapshots is returned; a too-short
`post_spikes` raises `IndexError` mid-loop at a step past its end whose
pre row spikes, not at entry; and when no pre row spikes past its end the
mismatch is never detected at all.  (The unamended claim fails: `tau < 0`
is not rejected, and shape errors are mid-loop and conditional, never
entry checks.) -/
theorem c6_no_validation :
    (∀ (tau dt T v_rest v_reset v_th i_dc noise_sigma sqrtDt : ℚ) (randn : ℕ → ℚ),
      dt = 0 → simulate_lif tau dt T v_rest v_reset v_th i_dc noise_sigma sqrtDt randn
        = .error "ZeroDivisionError")
    ∧ (∀ (tau dt T v_rest v_reset v_th i_dc noise_sigma sqrtDt : ℚ) (randn : ℕ → ℚ),
      0 < dt → 0 < T → tau = 0 →
      simulate_lif tau dt T v_rest v_reset v_th i_dc noise_sigma sqrtDt randn
        = .error "ZeroDivisionError")
    ∧ (∀ (tau dt T v_rest v_reset v_th i_dc noise_sigma sqrtDt : ℚ) (randn : ℕ → ℚ),
      0 < dt → 0 < T → tau ≠ 0 →
      (simulate_lif tau dt T v_rest v_reset v_th i_dc noise_sigma sqrtDt randn).isOk = true)
    ∧ (∀ (npre npost : ℕ) (pre_spikes : List (Fin npre → Bool))
        (post_spikes : List (Fin npost → Bool)) (w_init : Fin npre → Fin npost → ℚ)
        (eta w_min w_max : ℚ),
      pre_spikes.length ≤ post_spikes.length →
      hebbian_learning_exc pre_spikes post_spikes w_init eta w_min w_max
          = .ok (hebbian_learning pre_spikes post_spikes w_init eta w_min w_max)
        ∧ (hebbian_learning pre_spikes post_spikes w_init eta w_min w_max).length
          = pre_spikes.length + 1)
    ∧ (∀ (npre npost : ℕ) (pre_spikes : List (Fin npre → Bool))
        (post_spikes : List (Fin npost → Bool)) (w_init : Fin npre → Fin npost → ℚ)
        (eta w_min w_max : ℚ) (t : ℕ),
      post_spikes.length ≤ t → t < pre_spikes.length →
      rowSum (pre_spikes.getD t (fun _ => false)) > 0 →
      hebbian_learning_exc pre_spikes post_spikes w_init eta w_min w_max
        = .error "IndexError")
    ∧ (∀ (npre npost : ℕ) (pre_spikes : List (Fin npre → Bool))
        (post_spikes : List (Fin npost → Bool)) (w_init : Fin npre → Fin npost → ℚ)
        (eta w_min w_max : ℚ),
      (∀ t, post_spikes.length ≤ t → t < pre_spikes.length →
        ¬ rowSum (pre_spikes.getD t (fun _ => false)) > 0) →
      ∃ traj, hebbian_learning_exc pre_spikes post_spikes w_init eta w_min w_max = .ok traj
        ∧ traj.length = pre_spikes.length + 1) := by
  refine ⟨?_, ?_, ?_, ?_, ?_, ?_⟩
  · intro tau dt T v_rest v_reset v_th i_dc noise_sigma sqrtDt randn hdt0
    subst hdt0
    simp [simulate_lif]
  · intro tau dt T v_rest v_reset v_th i_dc noise_sigma sqrtDt randn hdt hT htau0
    have hceil : 0 < ⌈T / dt⌉ := Int.ceil_pos.mpr (div_pos hT hdt)
    simp only [simulate_lif]
    rw [if_neg hdt.ne', if_neg (not_lt.mpr hceil.le), if_neg hceil.ne', if_pos htau0]
  · intro tau dt T v_rest v_reset v_th i_dc noise_sigma sqrtDt randn hdt hT htau
    rw [simulate_lif_ok tau dt T v_rest v_reset v_th i_dc noise_sigma sqrtDt randn hdt hT htau]
    rfl
  · intro npre npost pre_spikes post_spikes w_init eta w_min w_max hle
    constructor
    · simp only [hebbian_learning_exc, hebbian_learning]
      rw [hebbAuxExc_ok_of_le eta w_min w_max pre_spikes post_spikes w_init hle]
      rfl
    · simp [hebbian_learning, hebbAux_length]
  · intro npre npost pre_spikes post_spikes w_init eta w_min w_max t hq ht hrow
    simp only [hebbian_learning_exc]
    rw [hebbAuxExc_error eta w_min w_max pre_spikes post_spikes w_init t hq ht hrow]
    rfl
  · intro npre npost pre_spikes post_spikes w_init eta w_min w_max hsil
    obtain ⟨traj, htraj, hlen⟩ :=
      hebbAuxExc_ok_of_silent_tail eta w_min w_max pre_spikes post_spikes w_init hsil
    refine ⟨w_init :: traj, ?_, by simp [hlen]⟩
    simp only [hebbian_learning_exc]
    rw [htraj]
    rfl

/-- Counterexample to C6 as stated: `tau_m = -1 ≤ 0` is not rejected —
`simulate_lif` returns a successful result instead of raising a
configuration error. -/
theorem c6_counterexample :
    ((-1 : ℚ) ≤ 0)
    ∧ (simulate_lif (-1) 1 2 0 0 1 2 0 1 (fun _ => 0)).isOk = true := by
  constructor
  · decide
  · rw [simulate_lif_ok (-1) 1 2 0 0 1 2 0 1 (fun _ => 0) (by decide) (by decide) (by decide)]
    rfl

/-- Witness for C6: instantiations of all six conjuncts at concrete
parameters — a longer-than-`pre_spikes` post matrix accepted silently, an
empty post matrix faulting mid-loop under a spiking pre row, and the same
empty post matrix going undetected under a silent pre row. -/
theorem c6_witness :
    ((0 : ℚ) = 0 ∧ simulate_lif 1 0 2 0 0 1 2 0 1 (fun _ => 0) = .error "ZeroDivisionError")
    ∧ (0 < (1 : ℚ) ∧ 0 < (2 : ℚ) ∧ (0 : ℚ) = 0
      ∧ simulate_lif 0 1 2 0 0 1 2 0 1 (fun _ => 0) = .error "ZeroDivisionError")
    ∧ ((1 : ℚ) ≠ 0 ∧ (simulate_lif 1 1 2 0 0 1 2 0 1 (fun _ => 0)).isOk = true)
    ∧ ([(fun _ => true : Fin 1 → Bool)].length
          ≤ [(fun _ => true : Fin 1 → Bool), (fun _ => true : Fin 1 → Bool)].length
      ∧ hebbian_learning_exc [(fun _ => true : Fin 1 → Bool)]
          [(fun _ => true : Fin 1 → Bool), (fun _ => true : Fin 1 → Bool)]
          (fun _ _ => (0 : ℚ)) 1 0 1
        = .ok (hebbian_learning [(fun _ => true : Fin 1 → Bool)]
          [(fun _ => true : Fin 1 → Bool), (fun _ => true : Fin 1 → Bool)]
          (fun _ _ => (0 : ℚ)) 1 0 1)
      ∧ (hebbian_learning [(fun _ => true : Fin 1 → Bool)]
          [(fun _ => true : Fin 1 → Bool), (fun _ => true : Fin 1 → Bool)]
          (fun _ _ => (0 : ℚ)) 1 0 1).length
        = [(fun _ => true : Fin 1 → Bool)].length + 1)
    ∧ (([] : List (Fin 1 → Bool)).length ≤ 0
      ∧ 0 < [(fun _ => true : Fin 1 → Bool)].length
      ∧ rowSum ([(fun _ => true : Fin 1 → Bool)].getD 0 (fun _ => false)) > 0
      ∧ hebbian_learning_exc [(fun _ => true : Fin 1 → Bool)] ([] : List (Fin 1 → Bool))
          (fun _ _ => (0 : ℚ)) 1 0 1 = .error "IndexError")
    ∧ ((∀ t, ([] : List (Fin 1 → Bool)).length ≤ t →
          t < [(fun _ => false : Fin 1 → Bool)].length →
          ¬ rowSum ([(fun _ => false : Fin 1 → Bool)].getD t (fun _ => false)) > 0)
      ∧ ∃ traj, hebbian_learning_exc [(fun _ => false : Fin 1 → Bool)]
          ([] : List (Fin 1 → Bool)) (fun _ _ => (0 : ℚ)) 1 0 1 = .ok traj
        ∧ traj.length = [(fun _ => false : Fin 1 → Bool)].length + 1) := by
  have hrowT : rowSum ([(fun _ => true : Fin 1 → Bool)].getD 0 (fun _ => false)) > 0 := by
    simp [rowSum, b2q]
  have hsilF : ∀ t, ([] : List (Fin 1 → Bool)).length ≤ t →
      t < [(fun _ => false : Fin 1 → Bool)].length →
      ¬ rowSum ([(fun _ => false : Fin 1 → Bool)].getD t (fun _ => false)) > 0 := by
    intro t h0 h1
    have ht : t = 0 := by simpa using h1
    subst ht
    simp [rowSum, b2q]
  exact ⟨⟨rfl, c6_no_validation.1 1 0 2 0 0 1 2 0 1 (fun _ => 0) rfl⟩,
    ⟨by decide, by decide, rfl,
      c6_no_validation.2.1 0 1 2 0 0 1 2 0 1 (fun _ => 0) (by decide) (by decide) rfl⟩,
    ⟨by decide, c6_no_validation.2.2.1 1 1 2 0 0 1 2 0 1 (fun _ => 0)
      (by decide) (by decide) (by decide)⟩,
    ⟨by decide, c6_no_validation.2.2.2.1 1 1 _ _ _ 1 0 1 (by decide)⟩,
    ⟨by decide, by decide, hrowT,
      c6_no_validation.2.2.2.2.1 1 1 _ _ _ 1 0 1 0 (by decide) (by decide) hrowT⟩,
    ⟨hsilF, c6_no_validation.2.2.2.2.2 1 1 _ _ _ 1 0 1 hsilF⟩⟩

/-- C7 (amended): the three spike sources derive their step count as
`int(duration/dt)` — truncation, i.e. the floor for positive arguments —
while only the LIF integrator uses `ceil(T/dt)`; each produced spike
matrix has `int(duration/dt)` rows and the potential trace has
`ceil(T/dt)` entries.  (The unamended claim fails: a non-integer
`duration/dt` gives the spike sources one row fewer than
`ceil(duration/dt)`.) -/
theorem c7_step_counts :
    (∀ (rate_hz duration_ms dt_ms : ℚ) (n : ℕ) (g : ℕ → ℚ),
      (generate_poisson_spikes rate_hz duration_ms dt_ms n g).length
        = (truncQ (duration_ms / dt_ms)).toNat)
    ∧ (∀ (interval_ms duration_ms dt_ms : ℚ) (n : ℕ) (offs : ℕ → ℕ),
      (generate_regular_spikes interval_ms duration_ms dt_ms n offs).length
        = (truncQ (duration_ms / dt_ms)).toNat)
    ∧ (∀ (rate_hz correlation duration_ms dt_ms : ℚ) (n : ℕ) (g : ℕ → ℚ),
      (generate_correlated_spikes rate_hz correlation duration_ms dt_ms n g).length
        = (truncQ (duration_ms / dt_ms)).toNat)
    ∧ (∀ (tau dt T v_rest v_reset v_th i_dc noise_sigma sqrtDt : ℚ) (randn : ℕ → ℚ),
      0 < dt → 0 < T → tau ≠ 0 →
      ∃ v s, simulate_lif tau dt T v_rest v_reset v_th i_dc noise_sigma sqrtDt randn
          = .ok (v, s)
        ∧ v.length = (⌈T / dt⌉).toNat ∧ s.length = (⌈T / dt⌉).toNat) := by
  refine ⟨?_, ?_, ?_, ?_⟩
  · intro rate_hz duration_ms dt_ms n g
    simp [generate_poisson_spikes]
  · intro interval_ms duration_ms dt_ms n offs
    simp [generate_regular_spikes]
  · intro rate_hz correlation duration_ms dt_ms n g
    simp [generate_correlated_spikes]
  · intro tau dt T v_rest v_reset v_th i_dc noise_sigma sqrtDt randn hdt hT htau
    have hnpos : 0 < (⌈T / dt⌉).toNat := ceil_toNat_pos hdt hT
    refine ⟨_, _, simulate_lif_ok tau dt T v_rest v_reset v_th i_dc noise_sigma sqrtDt
      randn hdt hT htau, ?_, ?_⟩
    · rw [List.length_map, lifPairs_length]
      omega
    · rw [List.length_map, lifPairs_length]
      omega

/-- Counterexample to C7 as stated: with `duration = 1`, `dt = 2/3` the
Poisson source produces `int(1.5) = 1` row, not `ceil(1.5) = 2`. -/
theorem c7_counterexample :
    (generate_poisson_spikes 500 1 (2/3) 1 (fun _ => 0)).length ≠ (⌈(1 : ℚ) / (2/3)⌉).toNat
    ∧ (generate_poisson_spikes 500 1 (2/3) 1 (fun _ => 0)).length = 1
    ∧ (⌈(1 : ℚ) / (2/3)⌉).toNat = 2 := by
  have hfloor : ⌊(1 : ℚ) / (2/3)⌋ = 1 := Int.floor_eq_iff.mpr (by norm_num)
  have hceil : ⌈(1 : ℚ) / (2/3)⌉ = 2 := Int.ceil_eq_iff.mpr (by norm_num)
  have h1 : (generate_poisson_spikes 500 1 (2/3) 1 (fun _ => 0)).length = 1 := by
    simp only [generate_poisson_spikes, List.length_map, List.length_range, truncQ]
    rw [if_pos (by norm_num : (0 : ℚ) ≤ 1 / (2/3)), hfloor]
    rfl
  have h2 : (⌈(1 : ℚ) / (2/3)⌉).toNat = 2 := by
    rw [hceil]
    rfl
  exact ⟨by rw [h1, h2]; decide, h1, h2⟩

/-- Witness for C7: instantiations of all four conjuncts at concrete
parameters. -/
theorem c7_witness :
    ((generate_poisson_spikes 500 1 1 1 (fun _ => 0)).length = (truncQ ((1 : ℚ) / 1)).toNat)
    ∧ ((generate_regular_spikes 1 1 1 1 (fun _ => 0)).length = (truncQ ((1 : ℚ) / 1)).toNat)
    ∧ ((generate_correlated_spikes 500 0 1 1 1 (fun _ => 0)).length
        = (truncQ ((1 : ℚ) / 1)).toNat)
    ∧ (0 < (1 : ℚ) ∧ 0 < (2 : ℚ) ∧ (1 : ℚ) ≠ 0
      ∧ ∃ v s, simulate_lif 1 1 2 0 0 1 2 0 1 (fun _ => 0) = .ok (v, s)
        ∧ v.length = (⌈(2 : ℚ) / 1⌉).toNat ∧ s.length = (⌈(2 : ℚ) / 1⌉).toNat) :=
  ⟨c7_step_counts.1 500 1 1 1 (fun _ => 0),
   c7_step_counts.2.1 1 1 1 1 (fun _ => 0),
   c7_step_counts.2.2.1 500 0 1 1 1 (fun _ => 0),
   by decide, by decide, by decide,
   c7_step_counts.2.2.2 1 1 2 0 0 1 2 0 1 (fun _ => 0) (by decide) (by decide) (by decide)⟩

lemma index_bound {t i n nsteps : ℕ} (ht : t < nsteps) (hi : i < n) :
    t * n + i < nsteps * n :=
  calc t * n + i < t * n + n := Nat.add_lt_add_left hi _
    _ = (t + 1) * n := (Nat.succ_mul t n).symm
    _ ≤ nsteps * n := Nat.mul_le_mul_right n (Nat.succ_le_of_lt ht)

/-- C2 (amended): every random draw comes from numpy's hidden process-global
generator — none of the functions takes a seed or generator parameter.
Modelling that global generator as an explicitly threaded draw stream,
each spike source reads a prefix of the stream whose extent is determined
by its parameters, so two runs with identical parameters *and identical
global generator state* are bit-identical.  (The unamended claim fails:
with the generator state hidden, identical explicit arguments do not
determine the output.) -/
theorem c2_stream_determinism :
    (∀ (rate_hz duration_ms dt_ms : ℚ) (n : ℕ) (g1 g2 : ℕ → ℚ),
      (∀ k, k < (truncQ (duration_ms / dt_ms)).toNat * n → g1 k = g2 k) →
      generate_poisson_spikes rate_hz duration_ms dt_ms n g1
        = generate_poisson_spikes rate_hz duration_ms dt_ms n g2)
    ∧ (∀ (interval_ms duration_ms dt_ms : ℚ) (n : ℕ) (o1 o2 : ℕ → ℕ),
      (∀ i, i < n → o1 i = o2 i) →
      generate_regular_spikes interval_ms duration_ms dt_ms n o1
        = generate_regular_spikes interval_ms duration_ms dt_ms n o2)
    ∧ (∀ (rate_hz correlation duration_ms dt_ms : ℚ) (n : ℕ) (g1 g2 : ℕ → ℚ),
      (∀ k, k < (truncQ (duration_ms / dt_ms)).toNat
          + (truncQ (duration_ms / dt_ms)).toNat * n → g1 k = g2 k) →
      generate_correlated_spikes rate_hz correlation duration_ms dt_ms n g1
        = generate_correlated_spikes rate_hz correlation duration_ms dt_ms n g2) := by
  refine ⟨?_, ?_, ?_⟩
  · intro rate_hz duration_ms dt_ms n g1 g2 hg
    unfold generate_poisson_spikes
    apply List.map_congr_left
    intro t ht
    funext i
    exact congrArg (fun x => decide (x < rate_hz * dt_ms / 1000))
      (hg (t * n + i.val) (index_bound (List.mem_range.mp ht) i.isLt))
  · intro interval_ms duration_ms dt_ms n o1 o2 ho
    unfold generate_regular_spikes
    apply List.map_congr_left
    intro t ht
    funext i
    rw [ho i.val i.isLt]
  · intro rate_hz correlation duration_ms dt_ms n g1 g2 hg
    unfold generate_correlated_spikes
    apply List.map_congr_left
    intro t ht
    funext i
    have ht2 : t < (truncQ (duration_ms / dt_ms)).toNat := List.mem_range.mp ht
    rw [hg t (Nat.lt_of_lt_of_le ht2 (Nat.le_add_right _ _)),
      hg ((truncQ (duration_ms / dt_ms)).toNat + t * n + i.val)
        (by
          have := index_bound ht2 i.isLt
          omega)]

/-- Counterexample to C2 as stated: two calls of the Poisson source with
identical explicit arguments but different hidden global-generator states
produce different spike matrices, so the output is not a function of the
parameters (there is no seed argument at all). -/
theorem c2_counterexample :
    generate_poisson_spikes 500 1 1 1 (fun _ => 0)
      ≠ generate_poisson_spikes 500 1 1 1 (fun _ => 1) := by
  intro h
  have hn : (truncQ ((1 : ℚ) / 1)).toNat = 1 := by
    rw [truncQ, if_pos (by norm_num : (0 : ℚ) ≤ 1 / 1)]
    norm_num
  have h0 := congrArg (fun l => l.getD 0 (fun _ => false) (0 : Fin 1)) h
  simp only [generate_poisson_spikes, hn] at h0
  rw [show List.range 1 = [0] from rfl] at h0
  simp only [List.map_cons, List.map_nil, List.getD_cons_zero] at h0
  simp only [decide_eq_decide] at h0
  have hlt : (0 : ℚ) < 500 * 1 / 1000 := by norm_num
  have hnlt : ¬ ((1 : ℚ) < 500 * 1 / 1000) := by norm_num
  exact hnlt (h0.mp hlt)

/-- Witness for C2: equal streams trivially agree on the consumed
prefixes, and the outputs coincide. -/
theorem c2_witness :
    ((∀ k, k < (truncQ ((1 : ℚ) / 1)).toNat * 1 →
        (fun _ => (0 : ℚ)) k = (fun _ => (0 : ℚ)) k)
      ∧ (∀ i, i < 1 → (fun _ => (0 : ℕ)) i = (fun _ => (0 : ℕ)) i)
      ∧ (∀ k, k < (truncQ ((1 : ℚ) / 1)).toNat + (truncQ ((1 : ℚ) / 1)).toNat * 1 →
        (fun _ => (0 : ℚ)) k = (fun _ => (0 : ℚ)) k))
    ∧ (generate_poisson_spikes 500 1 1 1 (fun _ => 0)
        = generate_poisson_spikes 500 1 1 1 (fun _ => 0))
    ∧ (generate_regular_spikes 1 1 1 1 (fun _ => 0)
        = generate_regular_spikes 1 1 1 1 (fun _ => 0))
    ∧ (generate_correlated_spikes 500 0 1 1 1 (fun _ => 0)
        = generate_correlated_spikes 500 0 1 1 1 (fun _ => 0)) :=
  ⟨⟨fun _ _ => rfl, fun _ _ => rfl, fun _ _ => rfl⟩,
   c2_stream_determinism.1 500 1 1 1 (fun _ => 0) (fun _ => 0) (fun _ _ => rfl),
   c2_stream_determinism.2.1 1 1 1 1 (fun _ => 0) (fun _ => 0) (fun _ _ => rfl),
   c2_stream_determinism.2.2 500 0 1 1 1 (fun _ => 0) (fun _ => 0) (fun _ _ => rfl)⟩
